import Mathlib

set_option autoImplicit false

/-
Shallow embedding of the github-settings reconciler
(pkg/github: settings types, GetSettingsFromFile, GetSettingsFromGithub,
Apply, updateRepoSettings, updateLabels, updateBranchSettings,
updateWebhooks, updateTopicsSettings).

Pure data is translated structure-for-structure from the Go source.
The remote GitHub API is modelled by an explicit remote-state type
together with a transition function for every write call the reconciler
issues; a reconciliation run is the list of write calls (`Op`) computed
from the snapshot read at the start of the run, exactly as in `Apply`
(every update function computes its calls from the snapshot taken by
`GetSettingsFromGithub` before any write happens).
-/

/-- Settings model: the `repository` struct of the source (all scalar
repository attributes, including `HasPages`). -/
structure repository where
  Name : String
  Owner : String
  Description : String
  Homepage : String
  DefaultBranch : String
  Private : Bool
  HasIssues : Bool
  HasProjects : Bool
  HasPages : Bool
  HasWiki : Bool
  HasDownloads : Bool
  IsTemplate : Bool
  Archived : Bool
  AllowSquashMerge : Bool
  AllowMergeCommit : Bool
  AllowRebaseMerge : Bool
deriving DecidableEq

/-- Settings model: the `label` struct of the source. -/
structure label where
  Name : String
  Description : String
  Color : String
deriving DecidableEq

/-- Settings model: the `requiredApprovingReviewCount` struct of the source. -/
structure requiredApprovingReviewCount where
  RequiredApprovingReviewCount : Int
  DismissStaleReviews : Bool
  RequireCodeOwnerReviews : Bool
deriving DecidableEq

/-- Settings model: the `requiredStatusChecks` struct of the source. -/
structure requiredStatusChecks where
  Strict : Bool
  Contexts : List String
deriving DecidableEq

/-- Settings model: the `protection` struct of the source. -/
structure protection where
  Enabled : Bool
  EnforceAdmins : Bool
  RequiredApprovingReviewCount : requiredApprovingReviewCount
  RequiredStatusChecks : requiredStatusChecks
deriving DecidableEq

/-- Settings model: the `branch` struct of the source. -/
structure branch where
  Name : String
  Protection : protection
deriving DecidableEq

/-- Settings model: the `webhook` struct of the source. -/
structure webhook where
  ID : Int
  URL : String
  ContentType : String
  Secret : String
  Events : List String
deriving DecidableEq

/-- Settings model: the `Settings` struct of the source. -/
structure Settings where
  Repository : repository
  Labels : List label
  Branches : List branch
  Webhooks : List webhook
  Topics : List String
deriving DecidableEq

/-- Go zero value of `requiredApprovingReviewCount`. -/
def reviewZero : requiredApprovingReviewCount :=
  { RequiredApprovingReviewCount := 0
    DismissStaleReviews := false
    RequireCodeOwnerReviews := false }

/-- Go zero value of `protection` (an unprotected branch carries this record). -/
def protectionZero : protection :=
  { Enabled := false
    EnforceAdmins := false
    RequiredApprovingReviewCount := reviewZero
    RequiredStatusChecks := { Strict := false, Contexts := [] } }

/-- Normalization applied by `GetSettingsFromFile` to every declared branch
entry: `Protection.Enabled` is set to `true` unconditionally, and when the
raw `RequiredApprovingReviewCount` is `0` both review flags are forced to
`false` (the condition is evaluated on the raw record, matching the Go
range loop which reads the unmutated element). -/
def normalizeBranch (b : branch) : branch :=
  { b with
      Protection :=
        { b.Protection with
            Enabled := true
            RequiredApprovingReviewCount :=
              if b.Protection.RequiredApprovingReviewCount.RequiredApprovingReviewCount = 0 then
                { b.Protection.RequiredApprovingReviewCount with
                    DismissStaleReviews := false
                    RequireCodeOwnerReviews := false }
              else
                b.Protection.RequiredApprovingReviewCount } }

/-- Models `GetSettingsFromFile` after a successful read and YAML
unmarshal (file IO and parsing are external collaborators and can only
fail before this point): the branch normalization loop applied to the
parsed raw `Settings` value. -/
def GetSettingsFromFile (raw : Settings) : Settings :=
  { raw with Branches := raw.Branches.map normalizeBranch }

/-- Payload of the `Repositories.Edit` call issued by `updateRepoSettings`:
exactly the fields the source sends (`Name` and `Owner` are not part of the
edit payload). -/
structure repoEdit where
  Description : String
  Homepage : String
  DefaultBranch : String
  Private : Bool
  HasIssues : Bool
  HasProjects : Bool
  HasPages : Bool
  HasWiki : Bool
  HasDownloads : Bool
  IsTemplate : Bool
  Archived : Bool
  AllowSquashMerge : Bool
  AllowMergeCommit : Bool
  AllowRebaseMerge : Bool
deriving DecidableEq

/-- Edit payload built from a desired `repository` record, field for field
as in `updateRepoSettings`. -/
def mkRepoEdit (repo : repository) : repoEdit :=
  { Description := repo.Description
    Homepage := repo.Homepage
    DefaultBranch := repo.DefaultBranch
    Private := repo.Private
    HasIssues := repo.HasIssues
    HasProjects := repo.HasProjects
    HasPages := repo.HasPages
    HasWiki := repo.HasWiki
    HasDownloads := repo.HasDownloads
    IsTemplate := repo.IsTemplate
    Archived := repo.Archived
    AllowSquashMerge := repo.AllowSquashMerge
    AllowMergeCommit := repo.AllowMergeCommit
    AllowRebaseMerge := repo.AllowRebaseMerge }

/-- Payload of `UpdateBranchProtection` as built by `updateBranchSettings`:
`RequiredPullRequestReviews` is `none` exactly when the desired
`RequiredApprovingReviewCount` count is `0`. -/
structure protectionRequest where
  EnforceAdmins : Bool
  RequiredStatusChecks : requiredStatusChecks
  RequiredPullRequestReviews : Option requiredApprovingReviewCount
deriving DecidableEq

/-- Protection request built from a desired `protection` record, following
`updateBranchSettings` (count zero sends a nil reviews block). -/
def mkProtectionRequest (p : protection) : protectionRequest :=
  { EnforceAdmins := p.EnforceAdmins
    RequiredStatusChecks :=
      { Strict := p.RequiredStatusChecks.Strict
        Contexts := p.RequiredStatusChecks.Contexts }
    RequiredPullRequestReviews :=
      if p.RequiredApprovingReviewCount.RequiredApprovingReviewCount = 0 then
        none
      else
        some
          { DismissStaleReviews := p.RequiredApprovingReviewCount.DismissStaleReviews
            RequireCodeOwnerReviews := p.RequiredApprovingReviewCount.RequireCodeOwnerReviews
            RequiredApprovingReviewCount := p.RequiredApprovingReviewCount.RequiredApprovingReviewCount } }

/-- One write call on the remote GitHub API, as issued by the reconciler.
Owner and repository name are constant throughout a run and therefore not
carried on the calls. `createBranch` stands for the branch materializer
(clone default branch into memory, read head, set `refs/heads/<name>` at
the head commit, push). -/
inductive Op where
  | editRepo (e : repoEdit)
  | deleteLabel (name : String)
  | createLabel (l : label)
  | editLabel (name : String) (l : label)
  | createBranch (name : String)
  | updateBranchProtection (name : String) (req : protectionRequest)
  | removeBranchProtection (name : String)
  | createHook (url contentType secret : String) (events : List String)
  | editHook (id : Int) (url contentType secret : String) (events : List String)
  | deleteHook (id : Int)
  | replaceTopics (topics : List String)
deriving DecidableEq

/-- Association list with Go-map insert semantics (overwrite on equal key). -/
def insertKV {α : Type} (m : List (String × α)) (k : String) (v : α) : List (String × α) :=
  match m with
  | [] => [(k, v)]
  | p :: ps => if p.1 = k then (k, v) :: ps else p :: insertKV ps k v

/-- Go map indexing: the value stored at key `k`, if any. -/
def lookupKV {α : Type} (m : List (String × α)) (k : String) : Option α :=
  match m with
  | [] => none
  | p :: ps => if p.1 = k then some p.2 else lookupKV ps k

/-- Go `delete` on a map: removes the entry stored at key `k`. -/
def eraseKV {α : Type} (m : List (String × α)) (k : String) : List (String × α) :=
  m.filter (fun p => decide (p.1 ≠ k))

/-- The lookup map each update function builds from the remote list before
scanning the desired list (`deleteLabelMap`, `deleteBranchesMap`,
`deleteWebhooksMap` in the source). -/
def buildMap {α : Type} (key : α → String) (xs : List α) : List (String × α) :=
  xs.foldl (fun m x => insertKV m (key x) x) []

/-- Shared scan over the desired list against the remote lookup map, the
common shape of `updateLabels`, `updateBranchSettings` and
`updateWebhooks`: a desired entity whose key is absent from the map is
collected for creation (and, when `alsoUpd` holds, also for update, as
`updateBranchSettings` does with freshly created branches); a desired
entity whose key is present removes the map entry and, when the `keep`
comparison fails, contributes `norm d g` to the update list; entries left
in the map afterwards are the ones to delete.  Returns
(to-create, to-update, remaining map). -/
def diffPhase {α : Type} (key : α → String) (keep : α → α → Bool) (norm : α → α → α)
    (alsoUpd : Bool) : List α → List (String × α) → List α × List α × List (String × α)
  | [], m => ([], [], m)
  | d :: ds, m =>
    match lookupKV m (key d) with
    | none =>
      let r := diffPhase key keep norm alsoUpd ds m
      (d :: r.1, if alsoUpd then d :: r.2.1 else r.2.1, r.2.2)
    | some g =>
      let r := diffPhase key keep norm alsoUpd ds (eraseKV m (key d))
      (r.1, if keep d g then r.2.1 else norm d g :: r.2.1, r.2.2)

/-- Diff of `updateLabels`: labels are keyed by `Name`, compared by Go
struct equality, and the update record is the desired label itself. -/
def labelDiff (githubLabels labelsSettings : List label) :
    List label × List label × List (String × label) :=
  diffPhase (fun l => l.Name) (fun d g => decide (d = g)) (fun d _ => d) false
    labelsSettings (buildMap (fun l => l.Name) githubLabels)

/-- Write calls issued by `updateLabels`, in source order: the deletes
(iteration over the remaining map), then the creates, then the updates. -/
def updateLabels (githubLabels labelsSettings : List label) : List Op :=
  let r := labelDiff githubLabels labelsSettings
  r.2.2.map (fun p => Op.deleteLabel p.1)
    ++ r.1.map (fun l => Op.createLabel l)
    ++ r.2.1.map (fun l => Op.editLabel l.Name l)

/-- Diff of `updateBranchSettings`: branches are keyed by `Name`, compared
by `reflect.DeepEqual`, and a desired branch missing remotely is both
created and appended to the update list (`alsoUpd := true`). -/
def branchDiff (githubBranches branchesSettings : List branch) :
    List branch × List branch × List (String × branch) :=
  diffPhase (fun b => b.Name) (fun d g => decide (g = d)) (fun d _ => d) true
    branchesSettings (buildMap (fun b => b.Name) githubBranches)

/-- Write calls issued by `updateBranchSettings`, in source order: the
branch materializer runs during the scan of the desired list (so all
creates come first), then protection removals for remote branches not in
the desired list, then the protection updates. -/
def updateBranchSettings (githubBranches branchesSettings : List branch) : List Op :=
  let r := branchDiff githubBranches branchesSettings
  r.1.map (fun b => Op.createBranch b.Name)
    ++ r.2.2.map (fun p => Op.removeBranchProtection p.1)
    ++ r.2.1.map (fun b => Op.updateBranchProtection b.Name (mkProtectionRequest b.Protection))

/-- Comparison step of `updateWebhooks`: before comparing, the remote ID is
copied onto the desired record and the desired secret onto the remote
record, then `reflect.DeepEqual` decides. -/
def webhookKeep (d g : webhook) : Bool :=
  decide ({ g with Secret := d.Secret } = { d with ID := g.ID })

/-- Update record of `updateWebhooks`: the desired webhook with the
remote-assigned ID copied in. -/
def webhookNorm (d g : webhook) : webhook :=
  { d with ID := g.ID }

/-- Diff of `updateWebhooks`: webhooks are keyed by `URL`. -/
def webhookDiff (githubWebhooks webhooksSettings : List webhook) :
    List webhook × List webhook × List (String × webhook) :=
  diffPhase (fun w => w.URL) webhookKeep webhookNorm false
    webhooksSettings (buildMap (fun w => w.URL) githubWebhooks)

/-- Write calls issued by `updateWebhooks`, in source order: `CreateHook`
calls happen during the scan of the desired list (so all creates come
first), then `DeleteHook` for the remaining remote hooks (by ID), then
`EditHook` for the updates. -/
def updateWebhooks (githubWebhooks webhooksSettings : List webhook) : List Op :=
  let r := webhookDiff githubWebhooks webhooksSettings
  r.1.map (fun w => Op.createHook w.URL w.ContentType w.Secret w.Events)
    ++ r.2.2.map (fun p => Op.deleteHook p.2.ID)
    ++ r.2.1.map (fun w => Op.editHook w.ID w.URL w.ContentType w.Secret w.Events)

/-- Write calls issued by `updateRepoSettings`: one full-record edit when
the snapshot record and the desired record differ, nothing otherwise. -/
def updateRepoSettings (githubRepo repo : repository) : List Op :=
  if githubRepo = repo then [] else [Op.editRepo (mkRepoEdit repo)]

/-- Write calls issued by `updateTopicsSettings`: both topic lists are
sorted (`sort.Strings`) and compared element-wise; on any difference one
`ReplaceAllTopics` call with the desired list is issued. -/
def updateTopicsSettings (githubTopics topics : List String) : List Op :=
  if githubTopics.insertionSort (· ≤ ·) = topics.insertionSort (· ≤ ·) then []
  else [Op.replaceTopics topics]

/-- Write calls of one `Apply` run, given the snapshot read by
`GetSettingsFromGithub` at the start of the run: repository attributes,
then labels, then branches, then webhooks, then topics. Every update
function decides its calls from the snapshot and the desired settings
only, exactly as in the source. -/
def runOps (githubSettings settings : Settings) : List Op :=
  updateRepoSettings githubSettings.Repository settings.Repository
    ++ updateLabels githubSettings.Labels settings.Labels
    ++ updateBranchSettings githubSettings.Branches settings.Branches
    ++ updateWebhooks githubSettings.Webhooks settings.Webhooks
    ++ updateTopicsSettings githubSettings.Topics settings.Topics

/-- Remote branch-protection record as stored by GitHub: the
`RequiredPullRequestReviews` block may be absent (the read maps an absent
block to the zero-value review record). -/
structure RemoteProtection where
  EnforceAdmins : Bool
  RequiredPullRequestReviews : Option requiredApprovingReviewCount
  RequiredStatusChecks : requiredStatusChecks
deriving DecidableEq

/-- Remote branch: a name plus an optional protection record (`none` for an
unprotected branch). -/
structure RemoteBranch where
  Name : String
  Protection : Option RemoteProtection
deriving DecidableEq

/-- Ground-truth state of the remote repository, the durable store the
reconciler converges: the full repository record (including the real
`HasPages` flag), labels, branches with their stored protection, hooks
(with their remote-assigned IDs; `NextHookID` is the next fresh ID the
remote assigns on `CreateHook`) and topics. -/
structure RemoteState where
  Repo : repository
  Labels : List label
  Branches : List RemoteBranch
  Hooks : List webhook
  Topics : List String
  NextHookID : Int
deriving DecidableEq

/-- Branch entity produced by `GetSettingsFromGithub` for one remote
branch: a protected branch gets `Enabled := true` and its stored
protection detail (absent required-review block becomes the zero-value
record); an unprotected branch is emitted bare, with the zero-value
protection record. -/
def readBranch (rb : RemoteBranch) : branch :=
  match rb.Protection with
  | none => { Name := rb.Name, Protection := protectionZero }
  | some p =>
    { Name := rb.Name
      Protection :=
        { Enabled := true
          EnforceAdmins := p.EnforceAdmins
          RequiredApprovingReviewCount := p.RequiredPullRequestReviews.getD reviewZero
          RequiredStatusChecks := p.RequiredStatusChecks } }

/-- Snapshot of the current remote state, translated from
`GetSettingsFromGithub`. The repository literal in the source omits
`HasPages`, so the snapshot always carries the Go zero value `false` for
it, whatever the remote flag is. Reads are modelled as total (the
source's read failures abort the run before any write and are outside
the write-behaviour claims). -/
def GetSettingsFromGithub (r : RemoteState) : Settings :=
  { Repository :=
      { Name := r.Repo.Name
        Owner := r.Repo.Owner
        Description := r.Repo.Description
        Homepage := r.Repo.Homepage
        DefaultBranch := r.Repo.DefaultBranch
        Private := r.Repo.Private
        HasIssues := r.Repo.HasIssues
        HasProjects := r.Repo.HasProjects
        HasPages := false
        HasWiki := r.Repo.HasWiki
        HasDownloads := r.Repo.HasDownloads
        IsTemplate := r.Repo.IsTemplate
        Archived := r.Repo.Archived
        AllowSquashMerge := r.Repo.AllowSquashMerge
        AllowMergeCommit := r.Repo.AllowMergeCommit
        AllowRebaseMerge := r.Repo.AllowRebaseMerge }
    Labels := r.Labels
    Branches := r.Branches.map readBranch
    Webhooks := r.Hooks
    Topics := r.Topics }

/-- Effect of a repository edit on the remote record: the fields of the
payload are written, the identity fields `Name` and `Owner` (not part of
the payload) are untouched. -/
def applyEditRepo (repo : repository) (e : repoEdit) : repository :=
  { Name := repo.Name
    Owner := repo.Owner
    Description := e.Description
    Homepage := e.Homepage
    DefaultBranch := e.DefaultBranch
    Private := e.Private
    HasIssues := e.HasIssues
    HasProjects := e.HasProjects
    HasPages := e.HasPages
    HasWiki := e.HasWiki
    HasDownloads := e.HasDownloads
    IsTemplate := e.IsTemplate
    Archived := e.Archived
    AllowSquashMerge := e.AllowSquashMerge
    AllowMergeCommit := e.AllowMergeCommit
    AllowRebaseMerge := e.AllowRebaseMerge }

/-- Protection record stored by an `UpdateBranchProtection` call. -/
def storeReq (req : protectionRequest) : RemoteProtection :=
  { EnforceAdmins := req.EnforceAdmins
    RequiredPullRequestReviews := req.RequiredPullRequestReviews
    RequiredStatusChecks := req.RequiredStatusChecks }

/-- Semantics of one write call on the remote state: labels are addressed
by name, branch protection by branch name, hooks by remote-assigned ID;
`createBranch` adds an unprotected copy-of-head branch; `createHook`
assigns the next fresh ID; `replaceTopics` overwrites the topic set.
No call deletes a branch. -/
def applyOp (r : RemoteState) (op : Op) : RemoteState :=
  match op with
  | Op.editRepo e => { r with Repo := applyEditRepo r.Repo e }
  | Op.deleteLabel n => { r with Labels := r.Labels.filter (fun l => decide (l.Name ≠ n)) }
  | Op.createLabel l => { r with Labels := r.Labels ++ [l] }
  | Op.editLabel n l =>
    { r with Labels := r.Labels.map (fun x => if x.Name = n then l else x) }
  | Op.createBranch n =>
    { r with Branches := r.Branches ++ [{ Name := n, Protection := none }] }
  | Op.updateBranchProtection n req =>
    { r with Branches := r.Branches.map (fun b =>
        if b.Name = n then { Name := b.Name, Protection := some (storeReq req) } else b) }
  | Op.removeBranchProtection n =>
    { r with Branches := r.Branches.map (fun b =>
        if b.Name = n then { Name := b.Name, Protection := none } else b) }
  | Op.createHook url ct secret events =>
    { r with
        Hooks := r.Hooks ++
          [{ ID := r.NextHookID, URL := url, ContentType := ct, Secret := secret, Events := events }]
        NextHookID := r.NextHookID + 1 }
  | Op.editHook id url ct secret events =>
    { r with Hooks := r.Hooks.map (fun h =>
        if h.ID = id then { ID := h.ID, URL := url, ContentType := ct, Secret := secret, Events := events } else h) }
  | Op.deleteHook id => { r with Hooks := r.Hooks.filter (fun h => decide (h.ID ≠ id)) }
  | Op.replaceTopics ts => { r with Topics := ts }

/-- Sequential application of a list of write calls to the remote state. -/
def applyOps (r : RemoteState) (ops : List Op) : RemoteState :=
  ops.foldl applyOp r

/-- Remote state after one successful (failure-free) `Apply` run: the
snapshot is read once, the computed write calls are applied in order. -/
def applyRun (r : RemoteState) (settings : Settings) : RemoteState :=
  applyOps r (runOps (GetSettingsFromGithub r) settings)

/-- Wrapping of `github.com/pkg/errors`: `errors.Wrap(err, msg)` renders as
the message followed by the cause. -/
def wrapErr (msg cause : String) : String :=
  msg ++ ": " ++ cause

/-- Error message attached at the individual call site in the update
functions (`errors.Wrap` around the failed API call). -/
def opMsg : Op → String
  | Op.editRepo _ => "Error updating settings\n"
  | Op.deleteLabel _ => "Error deleting a label\n"
  | Op.createLabel _ => "Error creating a label\n"
  | Op.editLabel _ _ => "Error updating a label\n"
  | Op.createBranch _ => "Error creating branch\n"
  | Op.updateBranchProtection _ _ => "Error updating branch protection\n"
  | Op.removeBranchProtection _ => "Error removing branch protection\n"
  | Op.createHook _ _ _ _ => "Error creating webhook\n"
  | Op.editHook _ _ _ _ _ => "Error updating webhook\n"
  | Op.deleteHook _ => "Error removing webhook\n"
  | Op.replaceTopics _ => "Error updating repository topics\n"

/-- Resource kind of a write call, in the order `Apply` reconciles the
kinds: repository attributes, labels, branches, webhooks, topics. -/
def kindIdx : Op → Nat
  | Op.editRepo _ => 0
  | Op.deleteLabel _ => 1
  | Op.createLabel _ => 1
  | Op.editLabel _ _ => 1
  | Op.createBranch _ => 2
  | Op.updateBranchProtection _ _ => 2
  | Op.removeBranchProtection _ => 2
  | Op.createHook _ _ _ _ => 3
  | Op.editHook _ _ _ _ _ => 3
  | Op.deleteHook _ => 3
  | Op.replaceTopics _ => 4

/-- Error message `Apply` wraps around a failed update function, by
resource kind of the failed call. -/
def applyMsg : Op → String
  | Op.editRepo _ => "Error updating repository settings"
  | Op.deleteLabel _ => "Error updating repository labels"
  | Op.createLabel _ => "Error updating repository labels"
  | Op.editLabel _ _ => "Error updating repository labels"
  | Op.createBranch _ => "Error updating repository branches protection"
  | Op.updateBranchProtection _ _ => "Error updating repository branches protection"
  | Op.removeBranchProtection _ => "Error updating repository branches protection"
  | Op.createHook _ _ _ _ => "Error updating repository webhooks"
  | Op.editHook _ _ _ _ _ => "Error updating repository webhooks"
  | Op.deleteHook _ => "Error updating repository webhooks"
  | Op.replaceTopics _ => "Error updating repository topics"

/-- Fail-fast execution of a run's write calls against an error oracle
(`err op = some e` means the API call fails with cause `e`): calls are
issued in order; the first failing call is still issued, its wrapped
error is returned, and nothing after it runs.  Returns the list of calls
actually issued and the run result. -/
def execRun (err : Op → Option String) : List Op → List Op × Except String Unit
  | [] => ([], Except.ok ())
  | op :: rest =>
    match err op with
    | some e => ([op], Except.error (wrapErr (applyMsg op) (wrapErr (opMsg op) e)))
    | none =>
      let r := execRun err rest
      (op :: r.1, r.2)

/-- Go zero value of the `repository` record. -/
def repoZero : repository :=
  { Name := "", Owner := "", Description := "", Homepage := "", DefaultBranch := ""
    Private := false, HasIssues := false, HasProjects := false, HasPages := false
    HasWiki := false, HasDownloads := false, IsTemplate := false, Archived := false
    AllowSquashMerge := false, AllowMergeCommit := false, AllowRebaseMerge := false }

/-- Go zero value of the `Settings` record (empty resource lists). -/
def settingsZero : Settings :=
  { Repository := repoZero, Labels := [], Branches := [], Webhooks := [], Topics := [] }

/-- Empty remote repository state. -/
def remoteZero : RemoteState :=
  { Repo := repoZero, Labels := [], Branches := [], Hooks := [], Topics := [], NextHookID := 1 }

/-- Effect of a label-kind write call on the remote label list (the label
component of `applyOp`). -/
def applyLabelOp (L : List label) (op : Op) : List label :=
  match op with
  | Op.deleteLabel n => L.filter (fun l => decide (l.Name ≠ n))
  | Op.createLabel l => L ++ [l]
  | Op.editLabel n l => L.map (fun x => if x.Name = n then l else x)
  | _ => L

/-- Effect of a branch-kind write call on the remote branch list (the
branch component of `applyOp`). -/
def applyBranchOp (L : List RemoteBranch) (op : Op) : List RemoteBranch :=
  match op with
  | Op.createBranch n => L ++ [{ Name := n, Protection := none }]
  | Op.updateBranchProtection n req =>
    L.map (fun b => if b.Name = n then { Name := b.Name, Protection := some (storeReq req) } else b)
  | Op.removeBranchProtection n =>
    L.map (fun b => if b.Name = n then { Name := b.Name, Protection := none } else b)
  | _ => L

/-- Effect of a webhook-kind write call on the remote hook list and the
fresh-ID counter (the hook component of `applyOp`). -/
def applyHookOp (p : List webhook × Int) (op : Op) : List webhook × Int :=
  match op with
  | Op.createHook url ct secret events =>
    (p.1 ++ [{ ID := p.2, URL := url, ContentType := ct, Secret := secret, Events := events }], p.2 + 1)
  | Op.editHook id url ct secret events =>
    (p.1.map (fun h =>
      if h.ID = id then { ID := h.ID, URL := url, ContentType := ct, Secret := secret, Events := events } else h), p.2)
  | Op.deleteHook id => (p.1.filter (fun h => decide (h.ID ≠ id)), p.2)
  | _ => p

/-- Hook records appended by a block of consecutive `CreateHook` calls:
each desired record is stored with the next fresh remote ID. -/
def assignIDs (nid : Int) : List webhook → List webhook
  | [] => []
  | c :: cs => { c with ID := nid } :: assignIDs (nid + 1) cs

/-- Result of the block of `UpdateBranchProtection` calls of one run on a
stored remote branch: the branch whose name has an update entry gets that
entry's protection request stored; others are untouched. -/
def branchEditApply (us : List branch) (rb : RemoteBranch) : RemoteBranch :=
  match us.find? (fun u => decide (u.Name = rb.Name)) with
  | some u => { Name := rb.Name, Protection := some (storeReq (mkProtectionRequest u.Protection)) }
  | none => rb

/-- Result of the block of `EditHook` calls of one run on a stored remote
hook: the hook whose ID has an update entry gets that entry's payload
stored (keeping its ID); others are untouched. -/
def hookEditApply (us : List webhook) (h : webhook) : webhook :=
  match us.find? (fun u => decide (u.ID = h.ID)) with
  | some u => { ID := h.ID, URL := u.URL, ContentType := u.ContentType,
                Secret := u.Secret, Events := u.Events }
  | none => h

/-- Concrete remote state used to evaluate the idempotence theorem: one
label, one unprotected branch, one stored hook (ID 1, fresh counter 2) and
one topic. -/
def remoteC1 : RemoteState :=
  { Repo := repoZero
    Labels := [{ Name := "bug", Description := "", Color := "red" }]
    Branches := [RemoteBranch.mk "main" none]
    Hooks := [{ ID := 1, URL := "https://h.example", ContentType := "json",
                Secret := "", Events := ["push"] }]
    Topics := ["go"]
    NextHookID := 2 }

/-- Concrete desired settings used to evaluate the idempotence theorem: a
label edit and a label create, a protection update on the existing branch
and a new branch (both entries load-normalized), a hook edit and a hook
create, and a changed topic set. -/
def desiredC1 : Settings :=
  { Repository := repoZero
    Labels := [{ Name := "bug", Description := "d", Color := "blue" },
               { Name := "feat", Description := "", Color := "green" }]
    Branches :=
      [{ Name := "main"
         Protection :=
           { Enabled := true
             EnforceAdmins := true
             RequiredApprovingReviewCount :=
               { RequiredApprovingReviewCount := 0
                 DismissStaleReviews := false
                 RequireCodeOwnerReviews := false }
             RequiredStatusChecks := { Strict := true, Contexts := ["ci"] } } },
       { Name := "dev"
         Protection :=
           { Enabled := true
             EnforceAdmins := false
             RequiredApprovingReviewCount :=
               { RequiredApprovingReviewCount := 2
                 DismissStaleReviews := true
                 RequireCodeOwnerReviews := true }
             RequiredStatusChecks := { Strict := false, Contexts := [] } } }]
    Webhooks := [{ ID := 0, URL := "https://h.example", ContentType := "form",
                   Secret := "s", Events := ["push"] },
                 { ID := 0, URL := "https://h2.example", ContentType := "json",
                   Secret := "", Events := ["pull_request"] }]
    Topics := ["go", "cli"] }

theorem lookupKV_eq_none {α : Type} {m : List (String × α)} {k : String} :
    lookupKV m k = none ↔ ∀ p ∈ m, p.1 ≠ k := by
  induction m with
  | nil => simp [lookupKV]
  | cons p ps ih =>
    by_cases h : p.1 = k
    · simp [lookupKV, h]
    · simp [lookupKV, h, ih]

theorem mem_of_lookupKV {α : Type} {m : List (String × α)} {k : String} {v : α}
    (h : lookupKV m k = some v) : (k, v) ∈ m := by
  induction m with
  | nil => simp [lookupKV] at h
  | cons p ps ih =>
    by_cases hk : p.1 = k
    · simp [lookupKV, hk] at h
      have hp : p = (k, v) := by
        cases p
        simp_all
      rw [← hp]
      exact List.mem_cons_self p ps
    · simp [lookupKV, hk] at h
      exact List.mem_cons_of_mem p (ih h)

theorem mem_eraseKV {α : Type} {m : List (String × α)} {k : String} {p : String × α} :
    p ∈ eraseKV m k ↔ p ∈ m ∧ p.1 ≠ k := by
  simp [eraseKV, List.mem_filter]

theorem lookupKV_eraseKV_ne {α : Type} {m : List (String × α)} {k k' : String}
    (h : k' ≠ k) : lookupKV (eraseKV m k) k' = lookupKV m k' := by
  induction m with
  | nil => simp [eraseKV, lookupKV]
  | cons p ps ih =>
    by_cases hp : p.1 = k
    · have hne : p.1 ≠ k' := by rw [hp]; exact fun hb => h hb.symm
      have he : eraseKV (p :: ps) k = eraseKV ps k := by simp [eraseKV, hp]
      rw [he, ih]
      simp [lookupKV, hne]
    · have he : eraseKV (p :: ps) k = p :: eraseKV ps k := by simp [eraseKV, hp]
      rw [he]
      by_cases hp' : p.1 = k'
      · simp [lookupKV, hp']
      · simp [lookupKV, hp', ih]

theorem lookupKV_insertKV_self {α : Type} (m : List (String × α)) (k : String) (v : α) :
    lookupKV (insertKV m k v) k = some v := by
  induction m with
  | nil => simp [insertKV, lookupKV]
  | cons p ps ih =>
    by_cases hp : p.1 = k
    · simp [insertKV, lookupKV, hp]
    · simp [insertKV, lookupKV, hp, ih]

theorem lookupKV_insertKV_ne {α : Type} (m : List (String × α)) (k k' : String) (v : α)
    (h : k' ≠ k) : lookupKV (insertKV m k v) k' = lookupKV m k' := by
  have h' : k ≠ k' := Ne.symm h
  induction m with
  | nil => simp [insertKV, lookupKV, h']
  | cons p ps ih =>
    by_cases hp : p.1 = k
    · simp [insertKV, lookupKV, hp, h']
    · simp only [insertKV, hp, if_false, lookupKV]
      by_cases hp' : p.1 = k'
      · simp [hp']
      · simp [hp', ih]

theorem mem_insertKV {α : Type} {m : List (String × α)} {k : String} {v : α} {p : String × α}
    (h : p ∈ insertKV m k v) : p ∈ m ∨ p = (k, v) := by
  induction m with
  | nil => simp [insertKV] at h; simp [h]
  | cons q qs ih =>
    by_cases hq : q.1 = k
    · simp [insertKV, hq] at h
      rcases h with h | h
      · right; simp [h]
      · left; simp [h]
    · simp [insertKV, hq] at h
      rcases h with h | h
      · left; simp [h]
      · rcases ih h with h' | h'
        · left; simp [h']
        · right; exact h'

theorem mem_foldl_insertKV {α : Type} (key : α → String) (xs : List α)
    (m : List (String × α)) (p : String × α)
    (h : p ∈ xs.foldl (fun m x => insertKV m (key x) x) m) :
    p ∈ m ∨ ∃ x ∈ xs, p = (key x, x) := by
  induction xs generalizing m with
  | nil => simp at h; exact Or.inl h
  | cons x xs ih =>
    simp only [List.foldl_cons] at h
    rcases ih (insertKV m (key x) x) h with h' | h'
    · rcases mem_insertKV h' with h'' | h''
      · exact Or.inl h''
      · exact Or.inr ⟨x, by simp, h''⟩
    · rcases h' with ⟨y, hy, hp⟩
      exact Or.inr ⟨y, by simp [hy], hp⟩

theorem mem_buildMap {α : Type} {key : α → String} {xs : List α} {p : String × α}
    (h : p ∈ buildMap key xs) : ∃ x ∈ xs, p = (key x, x) := by
  rcases mem_foldl_insertKV key xs [] p h with h' | h'
  · simp at h'
  · exact h'

theorem lookupKV_foldl_insertKV_isSome {α : Type} (key : α → String) (xs : List α)
    (m : List (String × α)) (k : String) :
    (lookupKV (xs.foldl (fun m x => insertKV m (key x) x) m) k).isSome ↔
      (lookupKV m k).isSome ∨ k ∈ xs.map key := by
  induction xs generalizing m with
  | nil => simp
  | cons x xs ih =>
    simp only [List.foldl_cons, List.map_cons, List.mem_cons]
    rw [ih]
    by_cases hk : k = key x
    · subst hk
      simp [lookupKV_insertKV_self]
    · rw [lookupKV_insertKV_ne _ _ _ _ hk]
      constructor
      · rintro (h | h)
        · exact Or.inl h
        · exact Or.inr (Or.inr h)
      · rintro (h | h | h)
        · exact Or.inl h
        · exact absurd h hk
        · exact Or.inr h

theorem lookupKV_buildMap_isSome {α : Type} (key : α → String) (xs : List α) (k : String) :
    (lookupKV (buildMap key xs) k).isSome ↔ k ∈ xs.map key := by
  rw [buildMap, lookupKV_foldl_insertKV_isSome]
  simp [lookupKV]

theorem lookupKV_append_none {α : Type} {m₁ : List (String × α)} (m₂ : List (String × α))
    {k : String} (h : lookupKV m₁ k = none) :
    lookupKV (m₁ ++ m₂) k = lookupKV m₂ k := by
  induction m₁ with
  | nil => simp
  | cons p ps ih =>
    by_cases hp : p.1 = k
    · simp [lookupKV, hp] at h
    · simp [lookupKV, hp] at h ⊢
      exact ih h

theorem insertKV_eq_append {α : Type} {m : List (String × α)} {k : String} (v : α)
    (h : lookupKV m k = none) : insertKV m k v = m ++ [(k, v)] := by
  induction m with
  | nil => simp [insertKV]
  | cons p ps ih =>
    by_cases hp : p.1 = k
    · simp [lookupKV, hp] at h
    · simp [lookupKV, hp] at h
      simp [insertKV, hp, ih h]

theorem foldl_insertKV_eq_append {α : Type} (key : α → String) (xs : List α)
    (m : List (String × α)) (h : ∀ x ∈ xs, lookupKV m (key x) = none)
    (hx : (xs.map key).Nodup) :
    xs.foldl (fun m x => insertKV m (key x) x) m = m ++ xs.map (fun x => (key x, x)) := by
  induction xs generalizing m with
  | nil => simp
  | cons x xs ih =>
    simp only [List.map_cons, List.nodup_cons] at hx
    simp only [List.foldl_cons]
    rw [insertKV_eq_append x (h x (by simp))]
    rw [ih (m ++ [(key x, x)]) ?_ hx.2]
    · simp
    · intro y hy
      rw [lookupKV_append_none _ (h y (by simp [hy]))]
      have : key x ≠ key y := by
        intro hk
        exact hx.1 (hk ▸ List.mem_map_of_mem key hy)
      simp [lookupKV, this]

theorem buildMap_eq_map {α : Type} {key : α → String} {xs : List α}
    (hx : (xs.map key).Nodup) : buildMap key xs = xs.map (fun x => (key x, x)) := by
  rw [buildMap, foldl_insertKV_eq_append key xs [] (fun _ _ => rfl) hx]
  simp

theorem lookupKV_pairing {α : Type} (key : α → String) (xs : List α) (k : String) :
    lookupKV (xs.map (fun x => (key x, x))) k = xs.find? (fun x => decide (key x = k)) := by
  induction xs with
  | nil => simp [lookupKV]
  | cons x xs ih =>
    by_cases hx : key x = k
    · simp [lookupKV, List.find?, hx]
    · simp only [List.map_cons, lookupKV, hx, if_false, List.find?]
      rw [ih]
      simp [hx]

theorem diffPhase_creates {α : Type} (key : α → String) (keep : α → α → Bool)
    (norm : α → α → α) (alsoUpd : Bool) (ds : List α) (m : List (String × α))
    (h : (ds.map key).Nodup) :
    (diffPhase key keep norm alsoUpd ds m).1 =
      ds.filter (fun d => (lookupKV m (key d)).isNone) := by
  induction ds generalizing m with
  | nil => simp [diffPhase]
  | cons d ds ih =>
    simp only [List.map_cons, List.nodup_cons] at h
    cases hl : lookupKV m (key d) with
    | none =>
      rw [List.filter_cons_of_pos (by simp [hl])]
      simp only [diffPhase, hl]
      rw [ih m h.2]
    | some g =>
      rw [List.filter_cons_of_neg (by simp [hl])]
      simp only [diffPhase, hl]
      rw [ih (eraseKV m (key d)) h.2]
      apply List.filter_congr
      intro d' hd'
      have hne : key d' ≠ key d := by
        intro hk
        exact h.1 (hk ▸ List.mem_map_of_mem key hd')
      rw [lookupKV_eraseKV_ne hne]

theorem diffPhase_updates {α : Type} (key : α → String) (keep : α → α → Bool)
    (norm : α → α → α) (alsoUpd : Bool) (ds : List α) (m : List (String × α))
    (h : (ds.map key).Nodup) :
    (diffPhase key keep norm alsoUpd ds m).2.1 =
      ds.filterMap (fun d =>
        match lookupKV m (key d) with
        | none => if alsoUpd then some d else none
        | some g => if keep d g then none else some (norm d g)) := by
  induction ds generalizing m with
  | nil => simp [diffPhase]
  | cons d ds ih =>
    simp only [List.map_cons, List.nodup_cons] at h
    have hcongr : ∀ m' : List (String × α),
        (∀ d' ∈ ds, lookupKV m' (key d') = lookupKV m (key d')) →
        ds.filterMap (fun d' =>
          match lookupKV m' (key d') with
          | none => if alsoUpd then some d' else none
          | some g => if keep d' g then none else some (norm d' g)) =
        ds.filterMap (fun d' =>
          match lookupKV m (key d') with
          | none => if alsoUpd then some d' else none
          | some g => if keep d' g then none else some (norm d' g)) := by
      intro m' hm'
      apply List.filterMap_congr
      intro d' hd'
      rw [hm' d' hd']
    cases hl : lookupKV m (key d) with
    | none =>
      simp only [diffPhase, hl]
      rw [ih m h.2]
      cases alsoUpd <;> simp [hl]
    | some g =>
      have heq := hcongr (eraseKV m (key d)) (fun d' hd' => by
        have hne : key d' ≠ key d := by
          intro hk
          exact h.1 (hk ▸ List.mem_map_of_mem key hd')
        rw [lookupKV_eraseKV_ne hne])
      simp only [diffPhase, hl]
      rw [ih (eraseKV m (key d)) h.2, heq]
      cases hk : keep d g <;> simp [hl, hk]

theorem diffPhase_remaining {α : Type} (key : α → String) (keep : α → α → Bool)
    (norm : α → α → α) (alsoUpd : Bool) (ds : List α) (m : List (String × α)) :
    (diffPhase key keep norm alsoUpd ds m).2.2 =
      m.filter (fun p => decide (p.1 ∉ ds.map key)) := by
  induction ds generalizing m with
  | nil => simp [diffPhase]
  | cons d ds ih =>
    cases hl : lookupKV m (key d) with
    | none =>
      simp only [diffPhase, hl]
      rw [ih m]
      apply List.filter_congr
      intro p hp
      have : p.1 ≠ key d := (lookupKV_eq_none.mp hl) p hp
      simp [this]
    | some g =>
      simp only [diffPhase, hl]
      rw [ih (eraseKV m (key d))]
      rw [eraseKV, List.filter_filter]
      apply List.filter_congr
      intro p hp
      by_cases hpd : p.1 = key d <;> simp [hpd]

theorem lookupKV_buildMap_some {α : Type} {key : α → String} {xs : List α}
    (hx : (xs.map key).Nodup) {k : String} {g : α}
    (h : lookupKV (buildMap key xs) k = some g) : g ∈ xs ∧ key g = k := by
  rw [buildMap_eq_map hx, lookupKV_pairing] at h
  refine ⟨List.mem_of_find?_eq_some h, ?_⟩
  have := List.find?_some h
  simpa using this

theorem lookupKV_buildMap_self {α : Type} {key : α → String} {xs : List α}
    (hx : (xs.map key).Nodup) {x : α} (h : x ∈ xs) :
    lookupKV (buildMap key xs) (key x) = some x := by
  have hsome : (lookupKV (buildMap key xs) (key x)).isSome := by
    rw [lookupKV_buildMap_isSome]
    exact List.mem_map_of_mem key h
  rcases Option.isSome_iff_exists.mp hsome with ⟨g, hg⟩
  rcases lookupKV_buildMap_some hx hg with ⟨hgmem, hgkey⟩
  have : g = x := List.inj_on_of_nodup_map hx hgmem h hgkey
  rw [hg, this]

/-- Drained-diff lemma: when every desired entity finds a remote partner
with the same key surviving the `keep` comparison, and every remote key is
covered by the desired list, the diff computes no creates, no updates and
no deletes. -/
theorem diffPhase_drain {α : Type} (key : α → String) (keep : α → α → Bool)
    (norm : α → α → α) (alsoUpd : Bool) (F D : List α)
    (hD : (D.map key).Nodup) (hF : (F.map key).Nodup)
    (hkeys : ∀ x ∈ F, key x ∈ D.map key)
    (hmatch : ∀ d ∈ D, ∃ g ∈ F, key g = key d ∧ keep d g = true) :
    diffPhase key keep norm alsoUpd D (buildMap key F) = ([], [], []) := by
  have hcr := diffPhase_creates key keep norm alsoUpd D (buildMap key F) hD
  have hup := diffPhase_updates key keep norm alsoUpd D (buildMap key F) hD
  have hrm := diffPhase_remaining key keep norm alsoUpd D (buildMap key F)
  have h1 : (diffPhase key keep norm alsoUpd D (buildMap key F)).1 = [] := by
    rw [hcr, List.filter_eq_nil_iff]
    intro d hd
    rcases hmatch d hd with ⟨g, hgF, hgk, _⟩
    have : (lookupKV (buildMap key F) (key d)).isSome := by
      rw [lookupKV_buildMap_isSome]
      exact hgk ▸ List.mem_map_of_mem key hgF
    simp [Option.isNone_iff_eq_none]
    intro hnone
    rw [hnone] at this
    simp at this
  have h2 : (diffPhase key keep norm alsoUpd D (buildMap key F)).2.1 = [] := by
    rw [hup, List.filterMap_eq_nil_iff]
    intro d hd
    rcases hmatch d hd with ⟨g, hgF, hgk, hkeep⟩
    have hlk : lookupKV (buildMap key F) (key d) = some g := by
      rw [← hgk]
      exact lookupKV_buildMap_self hF hgF
    rw [hlk]
    simp [hkeep]
  have h3 : (diffPhase key keep norm alsoUpd D (buildMap key F)).2.2 = [] := by
    rw [hrm, List.filter_eq_nil_iff]
    intro p hp
    rcases mem_buildMap hp with ⟨x, hxF, hpx⟩
    have : p.1 ∈ D.map key := by
      rw [hpx]
      exact hkeys x hxF
    simp [this]
  calc diffPhase key keep norm alsoUpd D (buildMap key F)
      = ((diffPhase key keep norm alsoUpd D (buildMap key F)).1,
         (diffPhase key keep norm alsoUpd D (buildMap key F)).2.1,
         (diffPhase key keep norm alsoUpd D (buildMap key F)).2.2) := rfl
    _ = ([], [], []) := by rw [h1, h2, h3]

theorem kindIdx_mem_updateRepoSettings {a b : repository} {op : Op}
    (h : op ∈ updateRepoSettings a b) : kindIdx op = 0 := by
  by_cases hab : a = b
  · simp [updateRepoSettings, hab] at h
  · simp [updateRepoSettings, hab] at h
    simp [h, kindIdx]

theorem kindIdx_mem_updateLabels {A D : List label} {op : Op}
    (h : op ∈ updateLabels A D) : kindIdx op = 1 := by
  simp only [updateLabels, List.mem_append] at h
  rcases h with (h | h) | h <;>
    · rcases List.mem_map.mp h with ⟨x, _, hx⟩
      rw [← hx]
      rfl

theorem kindIdx_mem_updateBranchSettings {A D : List branch} {op : Op}
    (h : op ∈ updateBranchSettings A D) : kindIdx op = 2 := by
  simp only [updateBranchSettings, List.mem_append] at h
  rcases h with (h | h) | h <;>
    · rcases List.mem_map.mp h with ⟨x, _, hx⟩
      rw [← hx]
      rfl

theorem kindIdx_mem_updateWebhooks {A D : List webhook} {op : Op}
    (h : op ∈ updateWebhooks A D) : kindIdx op = 3 := by
  simp only [updateWebhooks, List.mem_append] at h
  rcases h with (h | h) | h <;>
    · rcases List.mem_map.mp h with ⟨x, _, hx⟩
      rw [← hx]
      rfl

theorem kindIdx_mem_updateTopicsSettings {A D : List String} {op : Op}
    (h : op ∈ updateTopicsSettings A D) : kindIdx op = 4 := by
  rw [updateTopicsSettings] at h
  split at h
  · simp at h
  · simp at h
    simp [h, kindIdx]

theorem pairwise_le_const (k : Nat) {l : List Nat} (h : ∀ x ∈ l, x = k) :
    l.Pairwise (· ≤ ·) := by
  induction l with
  | nil => exact List.Pairwise.nil
  | cons x xs ih =>
    refine List.Pairwise.cons ?_ (ih fun y hy => h y (by simp [hy]))
    intro y hy
    rw [h x (by simp), h y (by simp [hy])]

theorem pairwise_le_append {l₁ l₂ : List Nat}
    (h₁ : l₁.Pairwise (· ≤ ·)) (h₂ : l₂.Pairwise (· ≤ ·))
    (h : ∀ x ∈ l₁, ∀ y ∈ l₂, x ≤ y) : (l₁ ++ l₂).Pairwise (· ≤ ·) :=
  List.pairwise_append.mpr ⟨h₁, h₂, h⟩

/-- Kinds-order lemma: the write calls of one run are grouped by resource
kind in the order repository attributes, labels, branches, webhooks,
topics. -/
theorem runOps_kinds_sorted (S D : Settings) :
    ((runOps S D).map kindIdx).Pairwise (· ≤ ·) := by
  rw [runOps]
  simp only [List.map_append, List.append_assoc]
  refine pairwise_le_append (pairwise_le_const 0 ?_) (pairwise_le_append (pairwise_le_const 1 ?_)
    (pairwise_le_append (pairwise_le_const 2 ?_) (pairwise_le_append (pairwise_le_const 3 ?_)
      (pairwise_le_const 4 ?_) ?_) ?_) ?_) ?_
  · intro x hx
    rcases List.mem_map.mp hx with ⟨op, hop, hk⟩
    rw [← hk]
    exact kindIdx_mem_updateRepoSettings hop
  · intro x hx
    rcases List.mem_map.mp hx with ⟨op, hop, hk⟩
    rw [← hk]
    exact kindIdx_mem_updateLabels hop
  · intro x hx
    rcases List.mem_map.mp hx with ⟨op, hop, hk⟩
    rw [← hk]
    exact kindIdx_mem_updateBranchSettings hop
  · intro x hx
    rcases List.mem_map.mp hx with ⟨op, hop, hk⟩
    rw [← hk]
    exact kindIdx_mem_updateWebhooks hop
  · intro x hx
    rcases List.mem_map.mp hx with ⟨op, hop, hk⟩
    rw [← hk]
    exact kindIdx_mem_updateTopicsSettings hop
  · intro x hx y hy
    rcases List.mem_map.mp hx with ⟨op, hop, hk⟩
    rcases List.mem_map.mp hy with ⟨op', hop', hk'⟩
    rw [← hk, ← hk', kindIdx_mem_updateWebhooks hop, kindIdx_mem_updateTopicsSettings hop']
    omega
  · intro x hx y hy
    rcases List.mem_map.mp hx with ⟨op, hop, hk⟩
    rw [← hk, kindIdx_mem_updateBranchSettings hop]
    simp only [List.mem_append] at hy
    rcases hy with hy | hy <;> rcases List.mem_map.mp hy with ⟨op', hop', hk'⟩
    · rw [← hk', kindIdx_mem_updateWebhooks hop']
      omega
    · rw [← hk', kindIdx_mem_updateTopicsSettings hop']
      omega
  · intro x hx y hy
    rcases List.mem_map.mp hx with ⟨op, hop, hk⟩
    rw [← hk, kindIdx_mem_updateLabels hop]
    simp only [List.mem_append] at hy
    rcases hy with hy | hy | hy <;> rcases List.mem_map.mp hy with ⟨op', hop', hk'⟩
    · rw [← hk', kindIdx_mem_updateBranchSettings hop']
      omega
    · rw [← hk', kindIdx_mem_updateWebhooks hop']
      omega
    · rw [← hk', kindIdx_mem_updateTopicsSettings hop']
      omega
  · intro x hx y hy
    rcases List.mem_map.mp hx with ⟨op, hop, hk⟩
    rw [← hk, kindIdx_mem_updateRepoSettings hop]
    omega

/-- Phase of a label write call in the order the claim states: create,
then delete, then update. -/
def labelPhaseCDU : Op → Nat
  | Op.createLabel _ => 0
  | Op.deleteLabel _ => 1
  | Op.editLabel _ _ => 2
  | _ => 3

/-- Phase of a label write call in the order the source actually applies:
delete, then create, then update. -/
def labelPhaseDCU : Op → Nat
  | Op.deleteLabel _ => 0
  | Op.createLabel _ => 1
  | Op.editLabel _ _ => 2
  | _ => 3

/-- Phase of a branch write call in the order create, delete (protection
removal), update. -/
def branchPhaseCDU : Op → Nat
  | Op.createBranch _ => 0
  | Op.removeBranchProtection _ => 1
  | Op.updateBranchProtection _ _ => 2
  | _ => 3

/-- Phase of a webhook write call in the order create, delete, update. -/
def hookPhaseCDU : Op → Nat
  | Op.createHook _ _ _ _ => 0
  | Op.deleteHook _ => 1
  | Op.editHook _ _ _ _ _ => 2
  | _ => 3

theorem phase_const_of_map {α : Type} (f : α → Op) (ph : Op → Nat) (k : Nat)
    (hf : ∀ a, ph (f a) = k) (L : List α) :
    ∀ x ∈ (L.map f).map ph, x = k := by
  intro x hx
  rcases List.mem_map.mp hx with ⟨op, hop, hk⟩
  rcases List.mem_map.mp hop with ⟨a, _, ha⟩
  rw [← hk, ← ha, hf]

theorem updateLabels_phases_sorted (A D : List label) :
    ((updateLabels A D).map labelPhaseDCU).Pairwise (· ≤ ·) := by
  simp only [updateLabels, List.map_append, List.append_assoc]
  refine pairwise_le_append
    (pairwise_le_const 0 (phase_const_of_map _ _ 0 (fun a => rfl) _))
    (pairwise_le_append
      (pairwise_le_const 1 (phase_const_of_map _ _ 1 (fun a => rfl) _))
      (pairwise_le_const 2 (phase_const_of_map _ _ 2 (fun a => rfl) _)) ?_) ?_
  · intro x hx y hy
    rw [phase_const_of_map _ _ 1 (fun a => rfl) _ x hx,
      phase_const_of_map _ _ 2 (fun a => rfl) _ y hy]
    omega
  · intro x hx y hy
    rw [phase_const_of_map _ _ 0 (fun a => rfl) _ x hx]
    omega

theorem updateBranchSettings_phases_sorted (A D : List branch) :
    ((updateBranchSettings A D).map branchPhaseCDU).Pairwise (· ≤ ·) := by
  simp only [updateBranchSettings, List.map_append, List.append_assoc]
  refine pairwise_le_append
    (pairwise_le_const 0 (phase_const_of_map _ _ 0 (fun a => rfl) _))
    (pairwise_le_append
      (pairwise_le_const 1 (phase_const_of_map _ _ 1 (fun a => rfl) _))
      (pairwise_le_const 2 (phase_const_of_map _ _ 2 (fun a => rfl) _)) ?_) ?_
  · intro x hx y hy
    rw [phase_const_of_map _ _ 1 (fun a => rfl) _ x hx,
      phase_const_of_map _ _ 2 (fun a => rfl) _ y hy]
    omega
  · intro x hx y hy
    rw [phase_const_of_map _ _ 0 (fun a => rfl) _ x hx]
    omega

theorem updateWebhooks_phases_sorted (A D : List webhook) :
    ((updateWebhooks A D).map hookPhaseCDU).Pairwise (· ≤ ·) := by
  simp only [updateWebhooks, List.map_append, List.append_assoc]
  refine pairwise_le_append
    (pairwise_le_const 0 (phase_const_of_map _ _ 0 (fun a => rfl) _))
    (pairwise_le_append
      (pairwise_le_const 1 (phase_const_of_map _ _ 1 (fun a => rfl) _))
      (pairwise_le_const 2 (phase_const_of_map _ _ 2 (fun a => rfl) _)) ?_) ?_
  · intro x hx y hy
    rw [phase_const_of_map _ _ 1 (fun a => rfl) _ x hx,
      phase_const_of_map _ _ 2 (fun a => rfl) _ y hy]
    omega
  · intro x hx y hy
    rw [phase_const_of_map _ _ 0 (fun a => rfl) _ x hx]
    omega

/-- Claim C3 counterexample: with one remote label `a` and one desired
label `b` the label reconciler issues the delete of `a` before the create
of `b`, so the claimed order (all creates, then all deletes, then all
updates) fails on labels, a kind the claim does not except. -/
theorem claim_C3_counterexample :
    ¬ ((updateLabels [{ Name := "a", Description := "", Color := "" }]
          [{ Name := "b", Description := "", Color := "" }]).map labelPhaseCDU).Pairwise (· ≤ ·) := by
  decide

/-- Claim C3 (amended): resource kinds are reconciled in the fixed order
repository attributes, labels, branches, webhooks, topics; within one
kind the branch calls and the webhook calls follow the order create,
delete, update, but the label calls follow the order delete, create,
update (the label reconciler iterates its delete map first). -/
theorem claim_C3 (S D : Settings) :
    ((runOps S D).map kindIdx).Pairwise (· ≤ ·) ∧
    (∀ A D' : List label, ((updateLabels A D').map labelPhaseDCU).Pairwise (· ≤ ·)) ∧
    (∀ A D' : List branch, ((updateBranchSettings A D').map branchPhaseCDU).Pairwise (· ≤ ·)) ∧
    (∀ A D' : List webhook, ((updateWebhooks A D').map hookPhaseCDU).Pairwise (· ≤ ·)) :=
  ⟨runOps_kinds_sorted S D, fun A D' => updateLabels_phases_sorted A D',
    fun A D' => updateBranchSettings_phases_sorted A D',
    fun A D' => updateWebhooks_phases_sorted A D'⟩

/-- Claim C4: the snapshot read from the remote always reports
`HasPages = false` (the field is omitted from the repository literal in
`GetSettingsFromGithub`), so a desired configuration with pages enabled
compares unequal on every run and triggers an edit call. -/
theorem claim_C4 (r : RemoteState) (d : repository) :
    (GetSettingsFromGithub r).Repository.HasPages = false ∧
    (d.HasPages = true → updateRepoSettings (GetSettingsFromGithub r).Repository d ≠ []) := by
  refine ⟨rfl, fun hd => ?_⟩
  have hne : (GetSettingsFromGithub r).Repository ≠ d := by
    intro he
    have hfalse : (GetSettingsFromGithub r).Repository.HasPages = false := rfl
    rw [he, hd] at hfalse
    simp at hfalse
  rw [updateRepoSettings]
  simp [hne]

/-- Claim C5: after loading, every declared branch entry has
`Protection.Enabled = true`, and whenever the desired approving-review
count is zero both review flags are false, whatever the raw input said. -/
theorem claim_C5 (raw : Settings) (b : branch)
    (hb : b ∈ (GetSettingsFromFile raw).Branches) :
    b.Protection.Enabled = true ∧
    (b.Protection.RequiredApprovingReviewCount.RequiredApprovingReviewCount = 0 →
      b.Protection.RequiredApprovingReviewCount.DismissStaleReviews = false ∧
      b.Protection.RequiredApprovingReviewCount.RequireCodeOwnerReviews = false) := by
  have hb' : b ∈ raw.Branches.map normalizeBranch := hb
  rcases List.mem_map.mp hb' with ⟨b0, _, hb0⟩
  rw [← hb0]
  constructor
  · rfl
  · intro h0
    by_cases hz : b0.Protection.RequiredApprovingReviewCount.RequiredApprovingReviewCount = 0
    · simp [normalizeBranch, hz]
    · simp [normalizeBranch, hz] at h0

/-- Claim C6: a desired webhook and a remote webhook with the same URL
whose records can differ only in the secret (and the remote-assigned ID)
produce no write call at all: the comparison copies the remote ID onto
the desired record and the desired secret onto the remote record first. -/
theorem claim_C6 (gw ws : webhook) (hurl : ws.URL = gw.URL)
    (hct : ws.ContentType = gw.ContentType) (hev : ws.Events = gw.Events) :
    updateWebhooks [gw] [ws] = [] := by
  have hkeep : webhookKeep ws gw = true := by
    rw [webhookKeep, decide_eq_true_eq]
    cases gw
    cases ws
    simp_all
  have hlk : lookupKV (buildMap (fun w : webhook => w.URL) [gw]) ws.URL = some gw := by
    simp [buildMap, insertKV, lookupKV, hurl]
  rw [updateWebhooks]
  have hdiff : webhookDiff [gw] [ws] = ([], [], []) := by
    rw [webhookDiff]
    simp only [buildMap, List.foldl_cons, List.foldl_nil, insertKV] at hlk ⊢
    simp [diffPhase, hlk, hkeep, eraseKV, lookupKV, hurl]
  rw [hdiff]
  simp

theorem insertionSort_eq_iff_perm (l₁ l₂ : List String) :
    l₁.insertionSort (· ≤ ·) = l₂.insertionSort (· ≤ ·) ↔ l₁.Perm l₂ := by
  constructor
  · intro h
    exact ((List.perm_insertionSort (· ≤ ·) l₁).symm.trans
      (h ▸ List.perm_insertionSort (· ≤ ·) l₂))
  · intro hp
    apply List.eq_of_perm_of_sorted
      (((List.perm_insertionSort (· ≤ ·) l₁).trans hp).trans
        (List.perm_insertionSort (· ≤ ·) l₂).symm)
      (List.sorted_insertionSort (· ≤ ·) l₁)
      (List.sorted_insertionSort (· ≤ ·) l₂)

/-- Claim C7: the topics reconciler issues no call exactly when the two
topic lists are permutations of one another (sorting both and comparing
element-wise), and otherwise exactly one replace call whose payload is
the desired topic list. -/
theorem claim_C7 (githubTopics topics : List String) :
    (githubTopics.Perm topics → updateTopicsSettings githubTopics topics = []) ∧
    (¬ githubTopics.Perm topics →
      updateTopicsSettings githubTopics topics = [Op.replaceTopics topics]) := by
  constructor
  · intro hp
    rw [updateTopicsSettings, if_pos ((insertionSort_eq_iff_perm _ _).mpr hp)]
  · intro hp
    rw [updateTopicsSettings,
      if_neg (fun h => hp ((insertionSort_eq_iff_perm _ _).mp h))]

/-- Claim C4 witness: a remote repository with pages enabled still reads
back as `HasPages = false`, and a desired record with pages enabled
triggers an edit call. -/
theorem claim_C4_witness :
    ({ repoZero with HasPages := true } : repository).HasPages = true ∧
    (GetSettingsFromGithub
      { remoteZero with Repo := { repoZero with HasPages := true } }).Repository.HasPages = false ∧
    updateRepoSettings
      (GetSettingsFromGithub { remoteZero with Repo := { repoZero with HasPages := true } }).Repository
      { repoZero with HasPages := true } ≠ [] := by
  refine ⟨rfl, (claim_C4 { remoteZero with Repo := { repoZero with HasPages := true } }
    { repoZero with HasPages := true }).1,
    (claim_C4 { remoteZero with Repo := { repoZero with HasPages := true } }
      { repoZero with HasPages := true }).2 rfl⟩

/-- Claim C5 witness: a raw branch declared with count zero but both
review flags raw-set to true loads with `Enabled = true` and both flags
forced to false. -/
theorem claim_C5_witness :
    ({ Name := "main"
       Protection :=
        { Enabled := true, EnforceAdmins := true
          RequiredApprovingReviewCount :=
            { RequiredApprovingReviewCount := 0
              DismissStaleReviews := false, RequireCodeOwnerReviews := false }
          RequiredStatusChecks := { Strict := false, Contexts := [] } } } : branch) ∈
      (GetSettingsFromFile
        { settingsZero with
            Branches :=
              [{ Name := "main"
                 Protection :=
                  { Enabled := false, EnforceAdmins := true
                    RequiredApprovingReviewCount :=
                      { RequiredApprovingReviewCount := 0
                        DismissStaleReviews := true, RequireCodeOwnerReviews := true }
                    RequiredStatusChecks := { Strict := false, Contexts := [] } } }] }).Branches ∧
    ({ Name := "main"
       Protection :=
        { Enabled := true, EnforceAdmins := true
          RequiredApprovingReviewCount :=
            { RequiredApprovingReviewCount := 0
              DismissStaleReviews := false, RequireCodeOwnerReviews := false }
          RequiredStatusChecks := { Strict := false, Contexts := [] } } } : branch).Protection.Enabled = true ∧
    (({ Name := "main"
        Protection :=
         { Enabled := true, EnforceAdmins := true
           RequiredApprovingReviewCount :=
             { RequiredApprovingReviewCount := 0
               DismissStaleReviews := false, RequireCodeOwnerReviews := false }
           RequiredStatusChecks := { Strict := false, Contexts := [] } } } : branch).Protection.RequiredApprovingReviewCount.RequiredApprovingReviewCount = 0 →
      ({ Name := "main"
         Protection :=
          { Enabled := true, EnforceAdmins := true
            RequiredApprovingReviewCount :=
              { RequiredApprovingReviewCount := 0
                DismissStaleReviews := false, RequireCodeOwnerReviews := false }
            RequiredStatusChecks := { Strict := false, Contexts := [] } } } : branch).Protection.RequiredApprovingReviewCount.DismissStaleReviews = false ∧
      ({ Name := "main"
         Protection :=
          { Enabled := true, EnforceAdmins := true
            RequiredApprovingReviewCount :=
              { RequiredApprovingReviewCount := 0
                DismissStaleReviews := false, RequireCodeOwnerReviews := false }
            RequiredStatusChecks := { Strict := false, Contexts := [] } } } : branch).Protection.RequiredApprovingReviewCount.RequireCodeOwnerReviews = false) := by
  refine ⟨by decide, ?_⟩
  exact claim_C5
    { settingsZero with
        Branches :=
          [{ Name := "main"
             Protection :=
              { Enabled := false, EnforceAdmins := true
                RequiredApprovingReviewCount :=
                  { RequiredApprovingReviewCount := 0
                    DismissStaleReviews := true, RequireCodeOwnerReviews := true }
                RequiredStatusChecks := { Strict := false, Contexts := [] } } }] }
    _ (by decide)

/-- Claim C6 witness: a remote webhook and a desired webhook equal except
for the secret and the remote-assigned ID produce no write call. -/
theorem claim_C6_witness :
    updateWebhooks
      [{ ID := 7, URL := "https://example.test/hook", ContentType := "json"
         Secret := "stored-secret", Events := ["push"] }]
      [{ ID := 0, URL := "https://example.test/hook", ContentType := "json"
         Secret := "new-secret", Events := ["push"] }] = [] :=
  claim_C6
    { ID := 7, URL := "https://example.test/hook", ContentType := "json"
      Secret := "stored-secret", Events := ["push"] }
    { ID := 0, URL := "https://example.test/hook", ContentType := "json"
      Secret := "new-secret", Events := ["push"] }
    rfl rfl rfl

/-- Claim C7 witness: remote topics `b, a, c` against desired `a, b` are
not a permutation of each other, so exactly one replace call with payload
`a, b` is issued (the example of the specification). -/
theorem claim_C7_witness :
    ¬ (["b", "a", "c"] : List String).Perm ["a", "b"] ∧
    updateTopicsSettings ["b", "a", "c"] ["a", "b"] = [Op.replaceTopics ["a", "b"]] :=
  ⟨by decide, (claim_C7 ["b", "a", "c"] ["a", "b"]).2 (by decide)⟩

theorem diffPhase_create_mem {α : Type} (key : α → String) (keep : α → α → Bool)
    (norm : α → α → α) (alsoUpd : Bool) (A D : List α) (hD : (D.map key).Nodup) (x : α) :
    x ∈ (diffPhase key keep norm alsoUpd D (buildMap key A)).1 ↔
      x ∈ D ∧ key x ∉ A.map key := by
  rw [diffPhase_creates key keep norm alsoUpd D (buildMap key A) hD, List.mem_filter]
  constructor
  · rintro ⟨hx, hnone⟩
    refine ⟨hx, fun hk => ?_⟩
    rw [← lookupKV_buildMap_isSome key A (key x)] at hk
    rcases Option.isSome_iff_exists.mp hk with ⟨g, hg⟩
    rw [hg] at hnone
    simp at hnone
  · rintro ⟨hx, hk⟩
    refine ⟨hx, ?_⟩
    rw [← lookupKV_buildMap_isSome key A (key x)] at hk
    simp only [Option.isNone_iff_eq_none]
    cases hcase : lookupKV (buildMap key A) (key x) with
    | none => simp
    | some g => rw [hcase] at hk; simp at hk

theorem diffPhase_remaining_mem {α : Type} (key : α → String) (keep : α → α → Bool)
    (norm : α → α → α) (alsoUpd : Bool) (A D : List α) (hA : (A.map key).Nodup) (g : α) :
    (∃ p ∈ (diffPhase key keep norm alsoUpd D (buildMap key A)).2.2, p.2 = g) ↔
      g ∈ A ∧ key g ∉ D.map key := by
  rw [diffPhase_remaining key keep norm alsoUpd D (buildMap key A), buildMap_eq_map hA]
  constructor
  · rintro ⟨p, hp, hpg⟩
    rw [List.mem_filter] at hp
    rcases List.mem_map.mp hp.1 with ⟨x, hx, hpx⟩
    have hxg : x = g := by rw [← hpx] at hpg; exact hpg
    subst hxg
    refine ⟨hx, ?_⟩
    have := hp.2
    rw [← hpx] at this
    simpa using this
  · rintro ⟨hg, hk⟩
    refine ⟨(key g, g), List.mem_filter.mpr ⟨List.mem_map_of_mem _ hg, by simpa using hk⟩, rfl⟩

theorem diffPhase_update_mem {α : Type} (key : α → String) (keep : α → α → Bool)
    (norm : α → α → α) (A D : List α) (hA : (A.map key).Nodup) (hD : (D.map key).Nodup)
    (u : α) :
    u ∈ (diffPhase key keep norm false D (buildMap key A)).2.1 ↔
      ∃ d ∈ D, ∃ g ∈ A, key g = key d ∧ keep d g = false ∧ u = norm d g := by
  rw [diffPhase_updates key keep norm false D (buildMap key A) hD, List.mem_filterMap]
  constructor
  · rintro ⟨d, hd, hf⟩
    cases hcase : lookupKV (buildMap key A) (key d) with
    | none => rw [hcase] at hf; simp at hf
    | some g =>
      rw [hcase] at hf
      rcases lookupKV_buildMap_some hA hcase with ⟨hgA, hgk⟩
      cases hk : keep d g with
      | true => simp [hk] at hf
      | false =>
        simp [hk] at hf
        exact ⟨d, hd, g, hgA, hgk, hk, hf.symm⟩
  · rintro ⟨d, hd, g, hgA, hgk, hkeep, hu⟩
    refine ⟨d, hd, ?_⟩
    have hlk : lookupKV (buildMap key A) (key d) = some g := by
      rw [← hgk]
      exact lookupKV_buildMap_self hA hgA
    rw [hlk]
    simp [hkeep, hu]

theorem diffPhase_update_mem_alsoUpd {α : Type} (key : α → String) (keep : α → α → Bool)
    (norm : α → α → α) (A D : List α) (hA : (A.map key).Nodup) (hD : (D.map key).Nodup)
    (u : α) :
    u ∈ (diffPhase key keep norm true D (buildMap key A)).2.1 ↔
      (u ∈ D ∧ key u ∉ A.map key) ∨
        ∃ d ∈ D, ∃ g ∈ A, key g = key d ∧ keep d g = false ∧ u = norm d g := by
  rw [diffPhase_updates key keep norm true D (buildMap key A) hD, List.mem_filterMap]
  constructor
  · rintro ⟨d, hd, hf⟩
    cases hcase : lookupKV (buildMap key A) (key d) with
    | none =>
      rw [hcase] at hf
      simp at hf
      subst hf
      refine Or.inl ⟨hd, fun hk => ?_⟩
      rw [← lookupKV_buildMap_isSome key A (key d)] at hk
      rw [hcase] at hk
      simp at hk
    | some g =>
      rw [hcase] at hf
      rcases lookupKV_buildMap_some hA hcase with ⟨hgA, hgk⟩
      cases hk : keep d g with
      | true => simp [hk] at hf
      | false =>
        simp [hk] at hf
        exact Or.inr ⟨d, hd, g, hgA, hgk, hk, hf.symm⟩
  · rintro (⟨hu, hk⟩ | ⟨d, hd, g, hgA, hgk, hkeep, hu⟩)
    · refine ⟨u, hu, ?_⟩
      have hlk : lookupKV (buildMap key A) (key u) = none := by
        cases hcase : lookupKV (buildMap key A) (key u) with
        | none => rfl
        | some g =>
          exfalso
          apply hk
          rw [← lookupKV_buildMap_isSome key A (key u), hcase]
          simp
      rw [hlk]
      simp
    · refine ⟨d, hd, ?_⟩
      have hlk : lookupKV (buildMap key A) (key d) = some g := by
        rw [← hgk]
        exact lookupKV_buildMap_self hA hgA
      rw [hlk]
      simp [hkeep, hu]

/-- Claim C2 (amended): for identity-keyed label and webhook sequences the
to-create set is desired-minus-actual by identity, the to-delete set is
actual-minus-desired by identity, and the to-update set is the common
identities whose normalized records differ (for webhooks: after copying
the remote ID onto the desired record and the desired secret onto the
remote record).  For branches create and delete behave the same way, but
the to-update set additionally contains every freshly created branch, not
only the common-identity differing ones. -/
theorem claim_C2 (A_l D_l : List label) (A_b D_b : List branch) (A_w D_w : List webhook)
    (hAl : (A_l.map (fun l => l.Name)).Nodup) (hDl : (D_l.map (fun l => l.Name)).Nodup)
    (hAb : (A_b.map (fun b => b.Name)).Nodup) (hDb : (D_b.map (fun b => b.Name)).Nodup)
    (hAw : (A_w.map (fun w => w.URL)).Nodup) (hDw : (D_w.map (fun w => w.URL)).Nodup) :
    (∀ l, l ∈ (labelDiff A_l D_l).1 ↔ l ∈ D_l ∧ l.Name ∉ A_l.map (fun l => l.Name)) ∧
    (∀ g, (∃ p ∈ (labelDiff A_l D_l).2.2, p.2 = g) ↔
      g ∈ A_l ∧ g.Name ∉ D_l.map (fun l => l.Name)) ∧
    (∀ u, u ∈ (labelDiff A_l D_l).2.1 ↔ u ∈ D_l ∧ ∃ g ∈ A_l, g.Name = u.Name ∧ u ≠ g) ∧
    (∀ b, b ∈ (branchDiff A_b D_b).1 ↔ b ∈ D_b ∧ b.Name ∉ A_b.map (fun b => b.Name)) ∧
    (∀ g, (∃ p ∈ (branchDiff A_b D_b).2.2, p.2 = g) ↔
      g ∈ A_b ∧ g.Name ∉ D_b.map (fun b => b.Name)) ∧
    (∀ u, u ∈ (branchDiff A_b D_b).2.1 ↔
      (u ∈ D_b ∧ u.Name ∉ A_b.map (fun b => b.Name)) ∨
        (u ∈ D_b ∧ ∃ g ∈ A_b, g.Name = u.Name ∧ g ≠ u)) ∧
    (∀ w, w ∈ (webhookDiff A_w D_w).1 ↔ w ∈ D_w ∧ w.URL ∉ A_w.map (fun w => w.URL)) ∧
    (∀ g, (∃ p ∈ (webhookDiff A_w D_w).2.2, p.2 = g) ↔
      g ∈ A_w ∧ g.URL ∉ D_w.map (fun w => w.URL)) ∧
    (∀ u, u ∈ (webhookDiff A_w D_w).2.1 ↔
      ∃ d ∈ D_w, ∃ g ∈ A_w, g.URL = d.URL ∧
        ({ g with Secret := d.Secret } : webhook) ≠ { d with ID := g.ID } ∧
        u = { d with ID := g.ID }) := by
  refine ⟨?_, ?_, ?_, ?_, ?_, ?_, ?_, ?_, ?_⟩
  · intro l
    exact diffPhase_create_mem (fun l : label => l.Name) (fun d g => decide (d = g))
      (fun d _ => d) false A_l D_l hDl l
  · intro g
    exact diffPhase_remaining_mem (fun l : label => l.Name) (fun d g => decide (d = g))
      (fun d _ => d) false A_l D_l hAl g
  · intro u
    have hgen := diffPhase_update_mem (fun l : label => l.Name) (fun d g => decide (d = g))
      (fun d _ => d) A_l D_l hAl hDl u
    constructor
    · intro hu
      rcases hgen.mp hu with ⟨d, hd, g, hg, hk, hkeep, hu'⟩
      have hud : u = d := hu'
      have hgk : g.Name = d.Name := hk
      have hne : ¬ d = g := of_decide_eq_false hkeep
      subst hud
      exact ⟨hd, g, hg, hgk, fun h => hne h⟩
    · rintro ⟨hu, g, hg, hk, hne⟩
      exact hgen.mpr ⟨u, hu, g, hg, hk, decide_eq_false hne, rfl⟩
  · intro b
    exact diffPhase_create_mem (fun b : branch => b.Name) (fun d g => decide (g = d))
      (fun d _ => d) true A_b D_b hDb b
  · intro g
    exact diffPhase_remaining_mem (fun b : branch => b.Name) (fun d g => decide (g = d))
      (fun d _ => d) true A_b D_b hAb g
  · intro u
    have hgen := diffPhase_update_mem_alsoUpd (fun b : branch => b.Name)
      (fun d g => decide (g = d)) (fun d _ => d) A_b D_b hAb hDb u
    constructor
    · intro hu
      rcases hgen.mp hu with h | ⟨d, hd, g, hg, hk, hkeep, hu'⟩
      · exact Or.inl h
      · have hud : u = d := hu'
        have hgk : g.Name = d.Name := hk
        have hne : ¬ g = d := of_decide_eq_false hkeep
        subst hud
        exact Or.inr ⟨hd, g, hg, hgk, hne⟩
    · rintro (h | ⟨hu, g, hg, hk, hne⟩)
      · exact hgen.mpr (Or.inl h)
      · exact hgen.mpr (Or.inr ⟨u, hu, g, hg, hk, decide_eq_false hne, rfl⟩)
  · intro w
    exact diffPhase_create_mem (fun w : webhook => w.URL) webhookKeep webhookNorm
      false A_w D_w hDw w
  · intro g
    exact diffPhase_remaining_mem (fun w : webhook => w.URL) webhookKeep webhookNorm
      false A_w D_w hAw g
  · intro u
    have hgen := diffPhase_update_mem (fun w : webhook => w.URL) webhookKeep webhookNorm
      A_w D_w hAw hDw u
    constructor
    · intro hu
      rcases hgen.mp hu with ⟨d, hd, g, hg, hk, hkeep, hu'⟩
      have hne : ¬ ({ g with Secret := d.Secret } : webhook) = { d with ID := g.ID } :=
        of_decide_eq_false hkeep
      exact ⟨d, hd, g, hg, hk, hne, hu'⟩
    · rintro ⟨d, hd, g, hg, hk, hne, hu⟩
      exact hgen.mpr ⟨d, hd, g, hg, hk, decide_eq_false hne, hu⟩

/-- Claim C2 counterexample: for branches the to-update set is not the set
of common-identity differing entities: with no remote branch and one
desired branch, the branch reconciler puts the freshly created branch
into its update list although its identity occurs in the desired side
only. -/
theorem claim_C2_counterexample :
    ¬ (∀ u : branch,
        u ∈ (branchDiff [] [{ Name := "b", Protection := protectionZero }]).2.1 ↔
          u ∈ [({ Name := "b", Protection := protectionZero } : branch)] ∧
            ∃ g ∈ ([] : List branch), g.Name = u.Name ∧ g ≠ u) := by
  intro h
  have hmem : ({ Name := "b", Protection := protectionZero } : branch) ∈
      (branchDiff [] [{ Name := "b", Protection := protectionZero }]).2.1 := by
    decide
  rcases (h { Name := "b", Protection := protectionZero }).mp hmem with ⟨_, g, hg, _⟩
  simp at hg

/-- Claim C2 witness: the amended characterization at one-element label,
branch and webhook inputs (a label rename of the color, a freshly created
branch, a webhook content-type change under a secret difference). -/
theorem claim_C2_witness :
    ((([{ Name := "a", Description := "", Color := "red" }] : List label).map
      (fun l => l.Name)).Nodup) ∧
    ((([{ Name := "a", Description := "", Color := "blue" }] : List label).map
      (fun l => l.Name)).Nodup) ∧
    ((∀ l, l ∈ (labelDiff [{ Name := "a", Description := "", Color := "red" }]
        [{ Name := "a", Description := "", Color := "blue" }]).1 ↔
        l ∈ [({ Name := "a", Description := "", Color := "blue" } : label)] ∧
          l.Name ∉ ([{ Name := "a", Description := "", Color := "red" }] : List label).map
            (fun l => l.Name)) ∧
      (∀ g, (∃ p ∈ (labelDiff [{ Name := "a", Description := "", Color := "red" }]
          [{ Name := "a", Description := "", Color := "blue" }]).2.2, p.2 = g) ↔
          g ∈ [({ Name := "a", Description := "", Color := "red" } : label)] ∧
            g.Name ∉ ([{ Name := "a", Description := "", Color := "blue" }] : List label).map
              (fun l => l.Name)) ∧
      (∀ u, u ∈ (labelDiff [{ Name := "a", Description := "", Color := "red" }]
          [{ Name := "a", Description := "", Color := "blue" }]).2.1 ↔
          u ∈ [({ Name := "a", Description := "", Color := "blue" } : label)] ∧
            ∃ g ∈ [({ Name := "a", Description := "", Color := "red" } : label)],
              g.Name = u.Name ∧ u ≠ g) ∧
      (∀ b, b ∈ (branchDiff [] [{ Name := "b", Protection := protectionZero }]).1 ↔
          b ∈ [({ Name := "b", Protection := protectionZero } : branch)] ∧
            b.Name ∉ ([] : List branch).map (fun b => b.Name)) ∧
      (∀ g, (∃ p ∈ (branchDiff [] [{ Name := "b", Protection := protectionZero }]).2.2,
          p.2 = g) ↔
          g ∈ ([] : List branch) ∧
            g.Name ∉ ([{ Name := "b", Protection := protectionZero }] : List branch).map
              (fun b => b.Name)) ∧
      (∀ u, u ∈ (branchDiff [] [{ Name := "b", Protection := protectionZero }]).2.1 ↔
          (u ∈ [({ Name := "b", Protection := protectionZero } : branch)] ∧
            u.Name ∉ ([] : List branch).map (fun b => b.Name)) ∨
          (u ∈ [({ Name := "b", Protection := protectionZero } : branch)] ∧
            ∃ g ∈ ([] : List branch), g.Name = u.Name ∧ g ≠ u)) ∧
      (∀ w, w ∈ (webhookDiff
          [{ ID := 7, URL := "https://h", ContentType := "form", Secret := "s1", Events := [] }]
          [{ ID := 0, URL := "https://h", ContentType := "json", Secret := "s2", Events := [] }]).1 ↔
          w ∈ [({ ID := 0, URL := "https://h", ContentType := "json", Secret := "s2", Events := [] } : webhook)] ∧
            w.URL ∉ ([{ ID := 7, URL := "https://h", ContentType := "form", Secret := "s1", Events := [] }] : List webhook).map
              (fun w => w.URL)) ∧
      (∀ g, (∃ p ∈ (webhookDiff
          [{ ID := 7, URL := "https://h", ContentType := "form", Secret := "s1", Events := [] }]
          [{ ID := 0, URL := "https://h", ContentType := "json", Secret := "s2", Events := [] }]).2.2, p.2 = g) ↔
          g ∈ [({ ID := 7, URL := "https://h", ContentType := "form", Secret := "s1", Events := [] } : webhook)] ∧
            g.URL ∉ ([{ ID := 0, URL := "https://h", ContentType := "json", Secret := "s2", Events := [] }] : List webhook).map
              (fun w => w.URL)) ∧
      (∀ u, u ∈ (webhookDiff
          [{ ID := 7, URL := "https://h", ContentType := "form", Secret := "s1", Events := [] }]
          [{ ID := 0, URL := "https://h", ContentType := "json", Secret := "s2", Events := [] }]).2.1 ↔
          ∃ d ∈ [({ ID := 0, URL := "https://h", ContentType := "json", Secret := "s2", Events := [] } : webhook)],
            ∃ g ∈ [({ ID := 7, URL := "https://h", ContentType := "form", Secret := "s1", Events := [] } : webhook)],
              g.URL = d.URL ∧
                ({ g with Secret := d.Secret } : webhook) ≠ { d with ID := g.ID } ∧
                u = { d with ID := g.ID })) := by
  refine ⟨by decide, by decide, ?_⟩
  have h := claim_C2
    [{ Name := "a", Description := "", Color := "red" }]
    [{ Name := "a", Description := "", Color := "blue" }]
    [] [{ Name := "b", Protection := protectionZero }]
    [{ ID := 7, URL := "https://h", ContentType := "form", Secret := "s1", Events := [] }]
    [{ ID := 0, URL := "https://h", ContentType := "json", Secret := "s2", Events := [] }]
    (by decide) (by decide) (by decide) (by decide) (by decide) (by decide)
  exact h

theorem diffPhase_mem_of_absent {α : Type} (key : α → String) (keep : α → α → Bool)
    (norm : α → α → α) (alsoUpd : Bool) (ds : List α) (m : List (String × α)) (b : α)
    (hb : b ∈ ds) (hm : ∀ p ∈ m, p.1 ≠ key b) :
    b ∈ (diffPhase key keep norm alsoUpd ds m).1 ∧
    (alsoUpd = true → b ∈ (diffPhase key keep norm alsoUpd ds m).2.1) := by
  induction ds generalizing m with
  | nil => simp at hb
  | cons d ds ih =>
    rcases List.mem_cons.mp hb with hbd | hb'
    · subst hbd
      have hl : lookupKV m (key b) = none := lookupKV_eq_none.mpr hm
      simp only [diffPhase, hl]
      constructor
      · exact List.mem_cons_self _ _
      · intro ha
        subst ha
        simp
    · cases hl : lookupKV m (key d) with
      | none =>
        have hrec := ih m hb' hm
        simp only [diffPhase, hl]
        constructor
        · exact List.mem_cons_of_mem _ hrec.1
        · intro ha
          subst ha
          simp only [if_pos]
          exact List.mem_cons_of_mem _ (hrec.2 rfl)
      | some g =>
        have hm' : ∀ p ∈ eraseKV m (key d), p.1 ≠ key b :=
          fun p hp => hm p (mem_eraseKV.mp hp).1
        have hrec := ih (eraseKV m (key d)) hb' hm'
        simp only [diffPhase, hl]
        refine ⟨hrec.1, fun ha => ?_⟩
        subst ha
        cases hk : keep d g with
        | true => simpa [hk] using hrec.2 rfl
        | false =>
          simp only [hk, Bool.false_eq_true, if_false]
          exact List.mem_cons_of_mem _ (hrec.2 rfl)

/-- Claim C8: a desired branch with no remote counterpart is first created
by the branch materializer and later in the same run always receives an
`UpdateBranchProtection` call with its desired protection record, whatever
that record's attribute values are (the create call precedes the update
call in the run's call sequence). -/
theorem claim_C8 (A D : List branch) (b : branch) (hb : b ∈ D)
    (habs : b.Name ∉ A.map (fun b => b.Name)) :
    [Op.createBranch b.Name,
      Op.updateBranchProtection b.Name (mkProtectionRequest b.Protection)].Sublist
      (updateBranchSettings A D) := by
  have hm : ∀ p ∈ buildMap (fun b : branch => b.Name) A, p.1 ≠ b.Name := by
    intro p hp
    rcases mem_buildMap hp with ⟨x, hx, hpx⟩
    intro hcontra
    apply habs
    rw [← hcontra, hpx]
    exact List.mem_map_of_mem _ hx
  have hmem := diffPhase_mem_of_absent (fun b : branch => b.Name)
    (fun d g => decide (g = d)) (fun d _ => d) true D
    (buildMap (fun b : branch => b.Name) A) b hb hm
  have h1 : [Op.createBranch b.Name].Sublist
      ((branchDiff A D).1.map (fun b => Op.createBranch b.Name)) :=
    List.singleton_sublist.mpr (List.mem_map_of_mem _ hmem.1)
  have h2 : [Op.updateBranchProtection b.Name (mkProtectionRequest b.Protection)].Sublist
      ((branchDiff A D).2.1.map
        (fun b => Op.updateBranchProtection b.Name (mkProtectionRequest b.Protection))) :=
    List.singleton_sublist.mpr (List.mem_map_of_mem _ (hmem.2 rfl))
  have h2' := h2.trans (List.sublist_append_right
    ((branchDiff A D).2.2.map (fun p => Op.removeBranchProtection p.1)) _)
  have hfin := h1.append h2'
  rw [updateBranchSettings]
  rw [List.append_assoc]
  exact hfin

/-- Claim C8 witness: a desired branch `feature-x` absent remotely is
created and then scheduled for a protection update in the same run. -/
theorem claim_C8_witness :
    (({ Name := "feature-x", Protection := protectionZero } : branch) ∈
      [({ Name := "feature-x", Protection := protectionZero } : branch)]) ∧
    (({ Name := "feature-x", Protection := protectionZero } : branch).Name ∉
      (([] : List branch).map (fun b => b.Name))) ∧
    [Op.createBranch "feature-x",
      Op.updateBranchProtection "feature-x" (mkProtectionRequest protectionZero)].Sublist
      (updateBranchSettings [] [{ Name := "feature-x", Protection := protectionZero }]) := by
  refine ⟨by decide, by decide, ?_⟩
  exact claim_C8 [] [{ Name := "feature-x", Protection := protectionZero }]
    { Name := "feature-x", Protection := protectionZero } (by decide) (by decide)

theorem applyOp_branch_names (r : RemoteState) (op : Op) (n : String)
    (h : n ∈ r.Branches.map (fun b => b.Name)) :
    n ∈ (applyOp r op).Branches.map (fun b => b.Name) := by
  cases op with
  | createBranch n' =>
    simp only [applyOp, List.map_append]
    exact List.mem_append_left _ h
  | updateBranchProtection n' req =>
    simp only [applyOp, List.map_map]
    have heq : List.map ((fun b : RemoteBranch => b.Name) ∘ fun b : RemoteBranch =>
        if b.Name = n' then { Name := b.Name, Protection := some (storeReq req) } else b)
        r.Branches = r.Branches.map (fun b => b.Name) := by
      apply List.map_congr_left
      intro b _
      by_cases hb : b.Name = n' <;> simp [hb]
    rw [heq]
    exact h
  | removeBranchProtection n' =>
    simp only [applyOp, List.map_map]
    have heq : List.map ((fun b : RemoteBranch => b.Name) ∘ fun b : RemoteBranch =>
        if b.Name = n' then { Name := b.Name, Protection := none } else b)
        r.Branches = r.Branches.map (fun b => b.Name) := by
      apply List.map_congr_left
      intro b _
      by_cases hb : b.Name = n' <;> simp [hb]
    rw [heq]
    exact h
  | editRepo e => exact h
  | deleteLabel n' => exact h
  | createLabel l => exact h
  | editLabel n' l => exact h
  | createHook u c s e => exact h
  | editHook i u c s e => exact h
  | deleteHook i => exact h
  | replaceTopics t => exact h

theorem applyOps_branch_names (r : RemoteState) (ops : List Op) (n : String)
    (h : n ∈ r.Branches.map (fun b => b.Name)) :
    n ∈ (applyOps r ops).Branches.map (fun b => b.Name) := by
  induction ops generalizing r with
  | nil => exact h
  | cons op ops ih =>
    rw [applyOps, List.foldl_cons]
    exact ih (applyOp r op) (applyOp_branch_names r op n h)

/-- Claim C9: a remote branch whose name is absent from the desired
settings receives a `RemoveBranchProtection` call, and no write call of
any run ever removes a branch from the remote branch list (branches are
never deleted, only their protection). -/
theorem claim_C9 (A D : List branch) (g : branch) (hg : g ∈ A)
    (habs : g.Name ∉ D.map (fun b => b.Name)) :
    Op.removeBranchProtection g.Name ∈ updateBranchSettings A D ∧
    ∀ (r : RemoteState) (ops : List Op) (n : String),
      n ∈ r.Branches.map (fun b => b.Name) →
      n ∈ (applyOps r ops).Branches.map (fun b => b.Name) := by
  constructor
  · have hsome : (lookupKV (buildMap (fun b : branch => b.Name) A) g.Name).isSome := by
      rw [lookupKV_buildMap_isSome]
      exact List.mem_map_of_mem _ hg
    rcases Option.isSome_iff_exists.mp hsome with ⟨v, hv⟩
    have hmem : (g.Name, v) ∈ buildMap (fun b : branch => b.Name) A := mem_of_lookupKV hv
    have hrem : (g.Name, v) ∈ (branchDiff A D).2.2 := by
      rw [branchDiff, diffPhase_remaining, List.mem_filter]
      exact ⟨hmem, by simpa using habs⟩
    rw [updateBranchSettings]
    refine List.mem_append.mpr (Or.inl (List.mem_append.mpr (Or.inr ?_)))
    exact List.mem_map.mpr ⟨(g.Name, v), hrem, rfl⟩
  · exact fun r ops n h => applyOps_branch_names r ops n h

/-- Claim C9 witness: remote branch `old` absent from the desired settings
gets a protection-removal call, and branch names survive every op list. -/
theorem claim_C9_witness :
    (({ Name := "old", Protection := protectionZero } : branch) ∈
      [({ Name := "old", Protection := protectionZero } : branch)]) ∧
    (({ Name := "old", Protection := protectionZero } : branch).Name ∉
      (([] : List branch).map (fun b => b.Name))) ∧
    (Op.removeBranchProtection "old" ∈
      updateBranchSettings [{ Name := "old", Protection := protectionZero }] [] ∧
    ∀ (r : RemoteState) (ops : List Op) (n : String),
      n ∈ r.Branches.map (fun b => b.Name) →
      n ∈ (applyOps r ops).Branches.map (fun b => b.Name)) := by
  refine ⟨by decide, by decide, ?_⟩
  exact claim_C9 [{ Name := "old", Protection := protectionZero }] []
    { Name := "old", Protection := protectionZero } (by decide) (by decide)

theorem execRun_error (err : Op → Option String) (ops : List Op) (m : String)
    (h : (execRun err ops).2 = Except.error m) :
    ∃ pre o post e, ops = pre ++ o :: post ∧ (∀ p ∈ pre, err p = none) ∧
      err o = some e ∧ (execRun err ops).1 = pre ++ [o] ∧
      m = wrapErr (applyMsg o) (wrapErr (opMsg o) e) := by
  induction ops with
  | nil => simp [execRun] at h
  | cons op rest ih =>
    cases he : err op with
    | some e =>
      refine ⟨[], op, rest, e, by simp, by simp, he, ?_, ?_⟩
      · simp [execRun, he]
      · simp only [execRun, he] at h
        injection h with h'
        exact h'.symm
    | none =>
      simp only [execRun, he] at h
      rcases ih h with ⟨pre, o, post, e, hops, hpre, ho, hexec, hm⟩
      refine ⟨op :: pre, o, post, e, by simp [hops], ?_, ho, ?_, hm⟩
      · intro p hp
        rcases List.mem_cons.mp hp with hp' | hp'
        · rw [hp']; exact he
        · exact hpre p hp'
      · simp [execRun, he, hexec]

/-- Claim C10: when the run fails and the failing (last executed) write
call is a label call, the returned error is that call's error wrapped with
the label resource-kind context, and every executed call of the run was a
repository-attributes or label call: no branch, webhook or topic call ran. -/
theorem claim_C10 (S D : Settings) (err : Op → Option String) (o : Op) (m : String)
    (hres : (execRun err (runOps S D)).2 = Except.error m)
    (hlast : (execRun err (runOps S D)).1.getLast? = some o)
    (hkind : kindIdx o = 1) :
    (∃ e, err o = some e ∧
      m = wrapErr "Error updating repository labels" (wrapErr (opMsg o) e)) ∧
    ∀ p ∈ (execRun err (runOps S D)).1, kindIdx p ≤ 1 := by
  rcases execRun_error err (runOps S D) m hres with ⟨pre, o', post, e, hops, hpre, ho', hexec, hm⟩
  have ho'' : o' = o := by
    rw [hexec, List.getLast?_concat] at hlast
    injection hlast with h'
  subst ho''
  have hmsg : applyMsg o' = "Error updating repository labels" := by
    cases o' <;> simp [kindIdx] at hkind <;> rfl
  constructor
  · exact ⟨e, ho', by rw [hm, hmsg]⟩
  · intro p hp
    have hsort := runOps_kinds_sorted S D
    rw [hops, List.map_append, List.pairwise_append] at hsort
    rw [hexec] at hp
    rcases List.mem_append.mp hp with hp' | hp'
    · have hcross := hsort.2.2 (kindIdx p) (List.mem_map_of_mem kindIdx hp')
        (kindIdx o') (by simp)
      rw [hkind] at hcross
      exact hcross
    · have : p = o' := by simpa using hp'
      rw [this, hkind]

/-- Claim C10 witness: one remote label `a`, none desired, and an oracle
failing the delete call: the run executes only that label call and
returns its error wrapped with the label-kind context. -/
theorem claim_C10_witness :
    ((execRun (fun op => match op with | Op.deleteLabel _ => some "boom" | _ => none)
      (runOps { settingsZero with Labels := [{ Name := "a", Description := "", Color := "" }] }
        settingsZero)).2 =
      Except.error "Error updating repository labels: Error deleting a label\n: boom") ∧
    ((execRun (fun op => match op with | Op.deleteLabel _ => some "boom" | _ => none)
      (runOps { settingsZero with Labels := [{ Name := "a", Description := "", Color := "" }] }
        settingsZero)).1.getLast? = some (Op.deleteLabel "a")) ∧
    kindIdx (Op.deleteLabel "a") = 1 ∧
    ((∃ e, (fun op => match op with | Op.deleteLabel _ => some "boom" | _ => none)
        (Op.deleteLabel "a") = some e ∧
      "Error updating repository labels: Error deleting a label\n: boom" =
        wrapErr "Error updating repository labels" (wrapErr (opMsg (Op.deleteLabel "a")) e)) ∧
    ∀ p ∈ (execRun (fun op => match op with | Op.deleteLabel _ => some "boom" | _ => none)
      (runOps { settingsZero with Labels := [{ Name := "a", Description := "", Color := "" }] }
        settingsZero)).1, kindIdx p ≤ 1) := by
  refine ⟨rfl, rfl, rfl, ?_⟩
  exact claim_C10
    { settingsZero with Labels := [{ Name := "a", Description := "", Color := "" }] }
    settingsZero
    (fun op => match op with | Op.deleteLabel _ => some "boom" | _ => none)
    (Op.deleteLabel "a")
    "Error updating repository labels: Error deleting a label\n: boom"
    rfl rfl rfl

theorem applyOps_append (r : RemoteState) (l₁ l₂ : List Op) :
    applyOps r (l₁ ++ l₂) = applyOps (applyOps r l₁) l₂ := by
  simp [applyOps, List.foldl_append]

theorem applyOp_repo_frame (r : RemoteState) (op : Op) (h : kindIdx op ≠ 0) :
    (applyOp r op).Repo = r.Repo := by
  cases op <;> first | rfl | (exact absurd rfl h)

theorem applyOp_labels_frame (r : RemoteState) (op : Op) (h : kindIdx op ≠ 1) :
    (applyOp r op).Labels = r.Labels := by
  cases op <;> first | rfl | (exact absurd rfl h)

theorem applyOp_branches_frame (r : RemoteState) (op : Op) (h : kindIdx op ≠ 2) :
    (applyOp r op).Branches = r.Branches := by
  cases op <;> first | rfl | (exact absurd rfl h)

theorem applyOp_hooks_frame (r : RemoteState) (op : Op) (h : kindIdx op ≠ 3) :
    (applyOp r op).Hooks = r.Hooks ∧ (applyOp r op).NextHookID = r.NextHookID := by
  cases op <;> first | exact ⟨rfl, rfl⟩ | (exact absurd rfl h)

theorem applyOp_topics_frame (r : RemoteState) (op : Op) (h : kindIdx op ≠ 4) :
    (applyOp r op).Topics = r.Topics := by
  cases op <;> first | rfl | (exact absurd rfl h)

theorem applyOps_repo_frame (r : RemoteState) (ops : List Op)
    (h : ∀ op ∈ ops, kindIdx op ≠ 0) : (applyOps r ops).Repo = r.Repo := by
  induction ops generalizing r with
  | nil => rfl
  | cons op ops ih =>
    rw [applyOps, List.foldl_cons]
    rw [show List.foldl applyOp (applyOp r op) ops = applyOps (applyOp r op) ops from rfl]
    rw [ih (applyOp r op) (fun o ho => h o (by simp [ho])), applyOp_repo_frame r op (h op (by simp))]

theorem applyOps_labels_frame (r : RemoteState) (ops : List Op)
    (h : ∀ op ∈ ops, kindIdx op ≠ 1) : (applyOps r ops).Labels = r.Labels := by
  induction ops generalizing r with
  | nil => rfl
  | cons op ops ih =>
    rw [applyOps, List.foldl_cons]
    rw [show List.foldl applyOp (applyOp r op) ops = applyOps (applyOp r op) ops from rfl]
    rw [ih (applyOp r op) (fun o ho => h o (by simp [ho])), applyOp_labels_frame r op (h op (by simp))]

theorem applyOps_branches_frame (r : RemoteState) (ops : List Op)
    (h : ∀ op ∈ ops, kindIdx op ≠ 2) : (applyOps r ops).Branches = r.Branches := by
  induction ops generalizing r with
  | nil => rfl
  | cons op ops ih =>
    rw [applyOps, List.foldl_cons]
    rw [show List.foldl applyOp (applyOp r op) ops = applyOps (applyOp r op) ops from rfl]
    rw [ih (applyOp r op) (fun o ho => h o (by simp [ho])), applyOp_branches_frame r op (h op (by simp))]

theorem applyOps_hooks_frame (r : RemoteState) (ops : List Op)
    (h : ∀ op ∈ ops, kindIdx op ≠ 3) :
    (applyOps r ops).Hooks = r.Hooks ∧ (applyOps r ops).NextHookID = r.NextHookID := by
  induction ops generalizing r with
  | nil => exact ⟨rfl, rfl⟩
  | cons op ops ih =>
    rw [applyOps, List.foldl_cons]
    rw [show List.foldl applyOp (applyOp r op) ops = applyOps (applyOp r op) ops from rfl]
    have h1 := applyOp_hooks_frame r op (h op (by simp))
    have h2 := ih (applyOp r op) (fun o ho => h o (by simp [ho]))
    exact ⟨h2.1.trans h1.1, h2.2.trans h1.2⟩

theorem applyOps_topics_frame (r : RemoteState) (ops : List Op)
    (h : ∀ op ∈ ops, kindIdx op ≠ 4) : (applyOps r ops).Topics = r.Topics := by
  induction ops generalizing r with
  | nil => rfl
  | cons op ops ih =>
    rw [applyOps, List.foldl_cons]
    rw [show List.foldl applyOp (applyOp r op) ops = applyOps (applyOp r op) ops from rfl]
    rw [ih (applyOp r op) (fun o ho => h o (by simp [ho])), applyOp_topics_frame r op (h op (by simp))]

theorem applyOp_labels_proj (r : RemoteState) (op : Op) (h : kindIdx op = 1) :
    (applyOp r op).Labels = applyLabelOp r.Labels op := by
  cases op <;> first | rfl | (simp [kindIdx] at h)

theorem applyOp_branches_proj (r : RemoteState) (op : Op) (h : kindIdx op = 2) :
    (applyOp r op).Branches = applyBranchOp r.Branches op := by
  cases op <;> first | rfl | (simp [kindIdx] at h)

theorem applyOp_hooks_proj (r : RemoteState) (op : Op) (h : kindIdx op = 3) :
    ((applyOp r op).Hooks, (applyOp r op).NextHookID) =
      applyHookOp (r.Hooks, r.NextHookID) op := by
  cases op <;> first | rfl | (simp [kindIdx] at h)

theorem applyOps_labels_proj (r : RemoteState) (ops : List Op)
    (h : ∀ op ∈ ops, kindIdx op = 1) :
    (applyOps r ops).Labels = List.foldl applyLabelOp r.Labels ops := by
  induction ops generalizing r with
  | nil => rfl
  | cons op ops ih =>
    rw [applyOps, List.foldl_cons, List.foldl_cons]
    rw [show List.foldl applyOp (applyOp r op) ops = applyOps (applyOp r op) ops from rfl]
    rw [ih (applyOp r op) (fun o ho => h o (by simp [ho])), applyOp_labels_proj r op (h op (by simp))]

theorem applyOps_branches_proj (r : RemoteState) (ops : List Op)
    (h : ∀ op ∈ ops, kindIdx op = 2) :
    (applyOps r ops).Branches = List.foldl applyBranchOp r.Branches ops := by
  induction ops generalizing r with
  | nil => rfl
  | cons op ops ih =>
    rw [applyOps, List.foldl_cons, List.foldl_cons]
    rw [show List.foldl applyOp (applyOp r op) ops = applyOps (applyOp r op) ops from rfl]
    rw [ih (applyOp r op) (fun o ho => h o (by simp [ho])), applyOp_branches_proj r op (h op (by simp))]

theorem applyOps_hooks_proj (r : RemoteState) (ops : List Op)
    (h : ∀ op ∈ ops, kindIdx op = 3) :
    ((applyOps r ops).Hooks, (applyOps r ops).NextHookID) =
      List.foldl applyHookOp (r.Hooks, r.NextHookID) ops := by
  induction ops generalizing r with
  | nil => rfl
  | cons op ops ih =>
    rw [applyOps, List.foldl_cons, List.foldl_cons]
    rw [show List.foldl applyOp (applyOp r op) ops = applyOps (applyOp r op) ops from rfl]
    rw [← applyOp_hooks_proj r op (h op (by simp))]
    exact ih (applyOp r op) (fun o ho => h o (by simp [ho]))

theorem applyRun_repo (R : RemoteState) (D : Settings) :
    (applyRun R D).Repo =
      (applyOps R (updateRepoSettings (GetSettingsFromGithub R).Repository D.Repository)).Repo := by
  rw [applyRun, runOps, applyOps_append, applyOps_append, applyOps_append, applyOps_append]
  rw [applyOps_repo_frame _ _
    (fun op hop h0 => by have hk := kindIdx_mem_updateTopicsSettings hop; omega)]
  rw [applyOps_repo_frame _ _
    (fun op hop h0 => by have hk := kindIdx_mem_updateWebhooks hop; omega)]
  rw [applyOps_repo_frame _ _
    (fun op hop h0 => by have hk := kindIdx_mem_updateBranchSettings hop; omega)]
  rw [applyOps_repo_frame _ _
    (fun op hop h0 => by have hk := kindIdx_mem_updateLabels hop; omega)]

theorem applyRun_labels (R : RemoteState) (D : Settings) :
    (applyRun R D).Labels =
      List.foldl applyLabelOp R.Labels
        (updateLabels (GetSettingsFromGithub R).Labels D.Labels) := by
  rw [applyRun, runOps, applyOps_append, applyOps_append, applyOps_append, applyOps_append]
  rw [applyOps_labels_frame _ _
    (fun op hop h0 => by have hk := kindIdx_mem_updateTopicsSettings hop; omega)]
  rw [applyOps_labels_frame _ _
    (fun op hop h0 => by have hk := kindIdx_mem_updateWebhooks hop; omega)]
  rw [applyOps_labels_frame _ _
    (fun op hop h0 => by have hk := kindIdx_mem_updateBranchSettings hop; omega)]
  rw [applyOps_labels_proj _ _ (fun op hop => kindIdx_mem_updateLabels hop)]
  rw [applyOps_labels_frame _ _
    (fun op hop h0 => by have hk := kindIdx_mem_updateRepoSettings hop; omega)]

theorem applyRun_branches (R : RemoteState) (D : Settings) :
    (applyRun R D).Branches =
      List.foldl applyBranchOp R.Branches
        (updateBranchSettings (GetSettingsFromGithub R).Branches D.Branches) := by
  rw [applyRun, runOps, applyOps_append, applyOps_append, applyOps_append, applyOps_append]
  rw [applyOps_branches_frame _ _
    (fun op hop h0 => by have hk := kindIdx_mem_updateTopicsSettings hop; omega)]
  rw [applyOps_branches_frame _ _
    (fun op hop h0 => by have hk := kindIdx_mem_updateWebhooks hop; omega)]
  rw [applyOps_branches_proj _ _ (fun op hop => kindIdx_mem_updateBranchSettings hop)]
  rw [applyOps_branches_frame _ _
    (fun op hop h0 => by have hk := kindIdx_mem_updateLabels hop; omega)]
  rw [applyOps_branches_frame _ _
    (fun op hop h0 => by have hk := kindIdx_mem_updateRepoSettings hop; omega)]

theorem applyRun_hooks (R : RemoteState) (D : Settings) :
    ((applyRun R D).Hooks, (applyRun R D).NextHookID) =
      List.foldl applyHookOp (R.Hooks, R.NextHookID)
        (updateWebhooks (GetSettingsFromGithub R).Webhooks D.Webhooks) := by
  rw [applyRun, runOps, applyOps_append, applyOps_append, applyOps_append, applyOps_append]
  have ht := applyOps_hooks_frame
    (applyOps (applyOps (applyOps (applyOps R
      (updateRepoSettings (GetSettingsFromGithub R).Repository D.Repository))
      (updateLabels (GetSettingsFromGithub R).Labels D.Labels))
      (updateBranchSettings (GetSettingsFromGithub R).Branches D.Branches))
      (updateWebhooks (GetSettingsFromGithub R).Webhooks D.Webhooks))
    (updateTopicsSettings (GetSettingsFromGithub R).Topics D.Topics)
    (fun op hop h0 => by have hk := kindIdx_mem_updateTopicsSettings hop; omega)
  rw [ht.1, ht.2]
  rw [applyOps_hooks_proj _ _ (fun op hop => kindIdx_mem_updateWebhooks hop)]
  have hb := applyOps_hooks_frame
    (applyOps (applyOps R
      (updateRepoSettings (GetSettingsFromGithub R).Repository D.Repository))
      (updateLabels (GetSettingsFromGithub R).Labels D.Labels))
    (updateBranchSettings (GetSettingsFromGithub R).Branches D.Branches)
    (fun op hop h0 => by have hk := kindIdx_mem_updateBranchSettings hop; omega)
  rw [hb.1, hb.2]
  have hl := applyOps_hooks_frame
    (applyOps R (updateRepoSettings (GetSettingsFromGithub R).Repository D.Repository))
    (updateLabels (GetSettingsFromGithub R).Labels D.Labels)
    (fun op hop h0 => by have hk := kindIdx_mem_updateLabels hop; omega)
  rw [hl.1, hl.2]
  have hr := applyOps_hooks_frame R
    (updateRepoSettings (GetSettingsFromGithub R).Repository D.Repository)
    (fun op hop h0 => by have hk := kindIdx_mem_updateRepoSettings hop; omega)
  rw [hr.1, hr.2]

theorem applyRun_topics (R : RemoteState) (D : Settings) :
    (applyRun R D).Topics =
      if (GetSettingsFromGithub R).Topics.insertionSort (· ≤ ·) =
          D.Topics.insertionSort (· ≤ ·) then R.Topics else D.Topics := by
  rw [applyRun, runOps, applyOps_append, applyOps_append, applyOps_append, applyOps_append]
  by_cases ht : (GetSettingsFromGithub R).Topics.insertionSort (· ≤ ·) =
      D.Topics.insertionSort (· ≤ ·)
  · rw [if_pos ht]
    rw [show updateTopicsSettings (GetSettingsFromGithub R).Topics D.Topics = []
      from by rw [updateTopicsSettings, if_pos ht]]
    rw [show ∀ r : RemoteState, applyOps r [] = r from fun r => rfl]
    rw [applyOps_topics_frame _ _
      (fun op hop h0 => by have hk := kindIdx_mem_updateWebhooks hop; omega)]
    rw [applyOps_topics_frame _ _
      (fun op hop h0 => by have hk := kindIdx_mem_updateBranchSettings hop; omega)]
    rw [applyOps_topics_frame _ _
      (fun op hop h0 => by have hk := kindIdx_mem_updateLabels hop; omega)]
    rw [applyOps_topics_frame _ _
      (fun op hop h0 => by have hk := kindIdx_mem_updateRepoSettings hop; omega)]
  · rw [if_neg ht]
    rw [show updateTopicsSettings (GetSettingsFromGithub R).Topics D.Topics =
      [Op.replaceTopics D.Topics] from by rw [updateTopicsSettings, if_neg ht]]
    rfl

theorem applyLabelOps_deletes (L : List label) (ns : List String) :
    List.foldl applyLabelOp L (ns.map Op.deleteLabel) =
      L.filter (fun l => decide (l.Name ∉ ns)) := by
  induction ns generalizing L with
  | nil => simp
  | cons n ns ih =>
    rw [List.map_cons, List.foldl_cons]
    rw [show applyLabelOp L (Op.deleteLabel n) = L.filter (fun l => decide (l.Name ≠ n)) from rfl]
    rw [ih, List.filter_filter]
    apply List.filter_congr
    intro l _
    by_cases h1 : l.Name = n <;> by_cases h2 : l.Name ∈ ns <;> simp [h1, h2]

theorem applyLabelOps_creates (L cs : List label) :
    List.foldl applyLabelOp L (cs.map Op.createLabel) = L ++ cs := by
  induction cs generalizing L with
  | nil => simp
  | cons c cs ih =>
    rw [List.map_cons, List.foldl_cons]
    rw [show applyLabelOp L (Op.createLabel c) = L ++ [c] from rfl, ih]
    simp

theorem applyLabelOps_edits (L us : List label) (hus : (us.map (fun l => l.Name)).Nodup) :
    List.foldl applyLabelOp L (us.map (fun d => Op.editLabel d.Name d)) =
      L.map (fun l => (us.find? (fun u => decide (u.Name = l.Name))).getD l) := by
  induction us generalizing L with
  | nil => simp
  | cons u us ih =>
    simp only [List.map_cons, List.nodup_cons] at hus
    rw [List.map_cons, List.foldl_cons]
    rw [show applyLabelOp L (Op.editLabel u.Name u) =
      L.map (fun x => if x.Name = u.Name then u else x) from rfl]
    rw [ih _ hus.2, List.map_map]
    apply List.map_congr_left
    intro l _
    simp only [Function.comp]
    by_cases h : l.Name = u.Name
    · simp only [if_pos h]
      have hfind : us.find? (fun x => decide (x.Name = u.Name)) = none := by
        rw [List.find?_eq_none]
        intro x hx
        simp only [decide_eq_true_eq]
        intro hc
        exact hus.1 (hc ▸ List.mem_map_of_mem _ hx)
      have hhead : decide (u.Name = l.Name) = true := by simp [h]
      simp [List.find?, hhead, hfind]
    · simp only [if_neg h]
      have hhead : decide (u.Name = l.Name) = false := by
        simp only [decide_eq_false_iff_not]
        exact fun hc => h hc.symm
      simp [List.find?, hhead]

theorem applyBranchOps_creates (L : List RemoteBranch) (cs : List branch) :
    List.foldl applyBranchOp L (cs.map (fun b => Op.createBranch b.Name)) =
      L ++ cs.map (fun b => { Name := b.Name, Protection := none }) := by
  induction cs generalizing L with
  | nil => simp
  | cons c cs ih =>
    rw [List.map_cons, List.foldl_cons]
    rw [show applyBranchOp L (Op.createBranch c.Name) =
      L ++ [{ Name := c.Name, Protection := none }] from rfl, ih]
    simp

theorem applyBranchOps_updates (L : List RemoteBranch) (us : List branch)
    (hus : (us.map (fun b => b.Name)).Nodup) :
    List.foldl applyBranchOp L
      (us.map (fun b => Op.updateBranchProtection b.Name (mkProtectionRequest b.Protection))) =
      L.map (fun rb =>
        match us.find? (fun u => decide (u.Name = rb.Name)) with
        | some u => { Name := rb.Name, Protection := some (storeReq (mkProtectionRequest u.Protection)) }
        | none => rb) := by
  induction us generalizing L with
  | nil => simp
  | cons u us ih =>
    simp only [List.map_cons, List.nodup_cons] at hus
    rw [List.map_cons, List.foldl_cons]
    rw [show applyBranchOp L (Op.updateBranchProtection u.Name (mkProtectionRequest u.Protection)) =
      L.map (fun b => if b.Name = u.Name then
        { Name := b.Name, Protection := some (storeReq (mkProtectionRequest u.Protection)) }
        else b) from rfl]
    rw [ih _ hus.2, List.map_map]
    apply List.map_congr_left
    intro rb _
    simp only [Function.comp]
    by_cases h : rb.Name = u.Name
    · simp only [if_pos h]
      have hfind : us.find? (fun x => decide (x.Name = u.Name)) = none := by
        rw [List.find?_eq_none]
        intro x hx
        simp only [decide_eq_true_eq]
        intro hc
        exact hus.1 (hc ▸ List.mem_map_of_mem _ hx)
      have hhead : decide (u.Name = rb.Name) = true := by simp [h]
      simp [List.find?, hhead, hfind, h]
    · simp only [if_neg h]
      have hhead : decide (u.Name = rb.Name) = false := by
        simp only [decide_eq_false_iff_not]
        exact fun hc => h hc.symm
      simp [List.find?, hhead]

theorem applyHookOps_creates (L : List webhook) (nid : Int) (cs : List webhook) :
    List.foldl applyHookOp (L, nid)
      (cs.map (fun w => Op.createHook w.URL w.ContentType w.Secret w.Events)) =
      (L ++ assignIDs nid cs, nid + cs.length) := by
  induction cs generalizing L nid with
  | nil => simp [assignIDs]
  | cons c cs ih =>
    rw [List.map_cons, List.foldl_cons]
    rw [show applyHookOp (L, nid) (Op.createHook c.URL c.ContentType c.Secret c.Events) =
      (L ++ [{ c with ID := nid }], nid + 1) from rfl]
    rw [ih]
    rw [assignIDs]
    rw [Prod.mk.injEq]
    constructor
    · simp
    · simp
      omega

theorem applyHookOps_deletes (L : List webhook) (nid : Int) (ids : List Int) :
    List.foldl applyHookOp (L, nid) (ids.map Op.deleteHook) =
      (L.filter (fun h => decide (h.ID ∉ ids)), nid) := by
  induction ids generalizing L with
  | nil => simp
  | cons i ids ih =>
    rw [List.map_cons, List.foldl_cons]
    rw [show applyHookOp (L, nid) (Op.deleteHook i) =
      (L.filter (fun h => decide (h.ID ≠ i)), nid) from rfl]
    rw [ih, List.filter_filter]
    congr 1
    apply List.filter_congr
    intro h _
    by_cases h1 : h.ID = i <;> by_cases h2 : h.ID ∈ ids <;> simp [h1, h2]

theorem applyHookOps_edits (L : List webhook) (nid : Int) (us : List webhook)
    (hus : (us.map (fun w => w.ID)).Nodup) :
    List.foldl applyHookOp (L, nid)
      (us.map (fun w => Op.editHook w.ID w.URL w.ContentType w.Secret w.Events)) =
      (L.map (fun h =>
        match us.find? (fun u => decide (u.ID = h.ID)) with
        | some u => { ID := h.ID, URL := u.URL, ContentType := u.ContentType,
                      Secret := u.Secret, Events := u.Events }
        | none => h), nid) := by
  induction us generalizing L with
  | nil => simp
  | cons u us ih =>
    simp only [List.map_cons, List.nodup_cons] at hus
    rw [List.map_cons, List.foldl_cons]
    rw [show applyHookOp (L, nid) (Op.editHook u.ID u.URL u.ContentType u.Secret u.Events) =
      (L.map (fun h => if h.ID = u.ID then
        { ID := h.ID, URL := u.URL, ContentType := u.ContentType,
          Secret := u.Secret, Events := u.Events } else h), nid) from rfl]
    rw [ih _ hus.2, List.map_map]
    congr 1
    apply List.map_congr_left
    intro h _
    simp only [Function.comp]
    by_cases hid : h.ID = u.ID
    · simp only [if_pos hid]
      have hfind : us.find? (fun x => decide (x.ID = u.ID)) = none := by
        rw [List.find?_eq_none]
        intro x hx
        simp only [decide_eq_true_eq]
        intro hc
        exact hus.1 (hc ▸ List.mem_map_of_mem _ hx)
      have hhead : decide (u.ID = h.ID) = true := by simp [hid]
      simp [List.find?, hhead, hfind, hid]
    · simp only [if_neg hid]
      have hhead : decide (u.ID = h.ID) = false := by
        simp only [decide_eq_false_iff_not]
        exact fun hc => hid hc.symm
      simp [List.find?, hhead]

theorem lookupKV_buildMap_isNone {α : Type} (key : α → String) (xs : List α) (k : String) :
    (lookupKV (buildMap key xs) k).isNone = decide (k ∉ xs.map key) := by
  by_cases hk : k ∈ xs.map key
  · have hs : (lookupKV (buildMap key xs) k).isSome :=
      (lookupKV_buildMap_isSome key xs k).mpr hk
    rcases Option.isSome_iff_exists.mp hs with ⟨v, hv⟩
    simp [hv, hk]
  · have hs : ¬ (lookupKV (buildMap key xs) k).isSome := by
      rw [lookupKV_buildMap_isSome]
      exact hk
    rw [Option.not_isSome_iff_eq_none] at hs
    simp [hs, hk]

theorem diffPhase_creates_closed {α : Type} (key : α → String) (keep : α → α → Bool)
    (norm : α → α → α) (alsoUpd : Bool) (A D : List α) (hD : (D.map key).Nodup) :
    (diffPhase key keep norm alsoUpd D (buildMap key A)).1 =
      D.filter (fun d => decide (key d ∉ A.map key)) := by
  rw [diffPhase_creates key keep norm alsoUpd D (buildMap key A) hD]
  apply List.filter_congr
  intro d _
  rw [lookupKV_buildMap_isNone]

theorem diffPhase_remaining_closed {α : Type} (key : α → String) (keep : α → α → Bool)
    (norm : α → α → α) (alsoUpd : Bool) (A D : List α) (hA : (A.map key).Nodup) :
    (diffPhase key keep norm alsoUpd D (buildMap key A)).2.2 =
      (A.filter (fun g => decide (key g ∉ D.map key))).map (fun g => (key g, g)) := by
  rw [diffPhase_remaining, buildMap_eq_map hA, List.filter_map]
  rfl

theorem filterMap_sublist_self {α : Type} (f : α → Option α)
    (h : ∀ a, f a = none ∨ f a = some a) (l : List α) : (l.filterMap f).Sublist l := by
  induction l with
  | nil => simp
  | cons a l ih =>
    rcases h a with ha | ha
    · rw [List.filterMap_cons_none ha]
      exact ih.cons a
    · rw [List.filterMap_cons_some ha]
      exact ih.cons₂ a

theorem filterMap_map_key_sublist {α β : Type} (f : α → Option α) (key : α → β)
    (h : ∀ a b, f a = some b → key b = key a) (l : List α) :
    ((l.filterMap f).map key).Sublist (l.map key) := by
  induction l with
  | nil => simp
  | cons a l ih =>
    cases ha : f a with
    | none =>
      rw [List.filterMap_cons_none ha, List.map_cons]
      exact ih.cons (key a)
    | some b =>
      rw [List.filterMap_cons_some ha, List.map_cons, List.map_cons, h a b ha]
      exact ih.cons₂ (key a)

theorem updateLabels_eq_nil_of_diff {A D : List label}
    (h : labelDiff A D = ([], [], [])) : updateLabels A D = [] := by
  rw [updateLabels, h]
  rfl

theorem updateBranchSettings_eq_nil_of_diff {A D : List branch}
    (h : branchDiff A D = ([], [], [])) : updateBranchSettings A D = [] := by
  rw [updateBranchSettings, h]
  rfl

theorem updateWebhooks_eq_nil_of_diff {A D : List webhook}
    (h : webhookDiff A D = ([], [], [])) : updateWebhooks A D = [] := by
  rw [updateWebhooks, h]
  rfl

theorem labelDiff_updates_sublist (A D : List label)
    (hD : (D.map (fun l => l.Name)).Nodup) : ((labelDiff A D).2.1).Sublist D := by
  have heq := diffPhase_updates (fun l : label => l.Name) (fun d g => decide (d = g))
    (fun d _ => d) false D (buildMap (fun l : label => l.Name) A) hD
  rw [show (labelDiff A D).2.1 =
    (diffPhase (fun l : label => l.Name) (fun d g => decide (d = g)) (fun d _ => d) false D
      (buildMap (fun l : label => l.Name) A)).2.1 from rfl, heq]
  apply filterMap_sublist_self
  intro d
  cases hl : lookupKV (buildMap (fun l : label => l.Name) A) d.Name with
  | none => left; simp [hl]
  | some g =>
    cases hk : decide (d = g) with
    | true => left; simp [hl, hk]
    | false => right; simp [hl, hk]

theorem labels_second_run_nil (A D : List label)
    (hA : (A.map (fun l => l.Name)).Nodup) (hD : (D.map (fun l => l.Name)).Nodup) :
    updateLabels (List.foldl applyLabelOp A (updateLabels A D)) D = [] := by
  have husmem : ∀ u, u ∈ (labelDiff A D).2.1 ↔
      ∃ d ∈ D, ∃ g ∈ A, g.Name = d.Name ∧ decide (d = g) = false ∧ u = d :=
    fun u => diffPhase_update_mem (fun l : label => l.Name) (fun d g => decide (d = g))
      (fun d _ => d) A D hA hD u
  have husnodup : (((labelDiff A D).2.1).map (fun l => l.Name)).Nodup :=
    List.Nodup.sublist ((labelDiff_updates_sublist A D hD).map _) hD
  have hrem : (labelDiff A D).2.2 =
      (A.filter (fun g => decide (g.Name ∉ D.map (fun l => l.Name)))).map
        (fun g => (g.Name, g)) :=
    diffPhase_remaining_closed (fun l : label => l.Name) (fun d g => decide (d = g))
      (fun d _ => d) false A D hA
  have hcr : (labelDiff A D).1 =
      D.filter (fun d => decide (d.Name ∉ A.map (fun l => l.Name))) :=
    diffPhase_creates_closed (fun l : label => l.Name) (fun d g => decide (d = g))
      (fun d _ => d) false A D hD
  have hops : updateLabels A D =
      (((A.filter (fun g => decide (g.Name ∉ D.map (fun l => l.Name)))).map
        (fun g => g.Name)).map Op.deleteLabel
      ++ (D.filter (fun d => decide (d.Name ∉ A.map (fun l => l.Name)))).map Op.createLabel)
      ++ ((labelDiff A D).2.1).map (fun l => Op.editLabel l.Name l) := by
    rw [updateLabels, hrem, hcr, List.map_map, List.map_map]
    rfl
  have hfilter : A.filter (fun l => decide (l.Name ∉
      ((A.filter (fun g => decide (g.Name ∉ D.map (fun l => l.Name)))).map (fun g => g.Name)))) =
      A.filter (fun l => decide (l.Name ∈ D.map (fun l => l.Name))) := by
    apply List.filter_congr
    intro l hl
    rw [decide_eq_decide]
    constructor
    · intro hns
      by_cases hdn : l.Name ∈ D.map (fun l => l.Name)
      · exact hdn
      · exact absurd (List.mem_map_of_mem (fun g => g.Name)
          (List.mem_filter.mpr ⟨hl, by simpa using hdn⟩)) hns
    · intro hdn hns
      rcases List.mem_map.mp hns with ⟨g, hg, hgname⟩
      rcases List.mem_filter.mp hg with ⟨_, hgdn⟩
      simp only [decide_eq_true_eq] at hgdn
      rw [hgname] at hgdn
      exact hgdn hdn
  have hfold : List.foldl applyLabelOp A (updateLabels A D) =
      ((A.filter (fun l => decide (l.Name ∈ D.map (fun l => l.Name)))
        ++ D.filter (fun d => decide (d.Name ∉ A.map (fun l => l.Name)))).map
        (fun l => (((labelDiff A D).2.1).find? (fun u => decide (u.Name = l.Name))).getD l)) := by
    rw [hops, List.foldl_append, List.foldl_append]
    rw [applyLabelOps_deletes, applyLabelOps_creates, applyLabelOps_edits _ _ husnodup]
    rw [hfilter]
  have hFD : ∀ x ∈ List.foldl applyLabelOp A (updateLabels A D), x ∈ D := by
    intro x hx
    rw [hfold] at hx
    rcases List.mem_map.mp hx with ⟨y, hy, hxy⟩
    rcases List.mem_append.mp hy with hy1 | hy2
    · rcases List.mem_filter.mp hy1 with ⟨hyA, hydn⟩
      simp only [decide_eq_true_eq] at hydn
      cases hfind : ((labelDiff A D).2.1).find? (fun u => decide (u.Name = y.Name)) with
      | some u =>
        have hxu : x = u := by rw [← hxy, hfind]; rfl
        rcases (husmem u).mp (List.mem_of_find?_eq_some hfind) with ⟨d, hd, _, _, _, _, hud⟩
        rw [hxu, hud]
        exact hd
      | none =>
        have hxy' : x = y := by rw [← hxy, hfind]; rfl
        rcases List.mem_map.mp hydn with ⟨d, hd, hdname⟩
        by_cases hdy : d = y
        · rw [hxy', ← hdy]; exact hd
        · exfalso
          have hdus : d ∈ (labelDiff A D).2.1 :=
            (husmem d).mpr ⟨d, hd, y, hyA, hdname.symm, decide_eq_false hdy, rfl⟩
          have := List.find?_eq_none.mp hfind d hdus
          simp [hdname] at this
    · rcases List.mem_filter.mp hy2 with ⟨hyD, hyan⟩
      simp only [decide_eq_true_eq] at hyan
      have hfind : ((labelDiff A D).2.1).find? (fun u => decide (u.Name = y.Name)) = none := by
        rw [List.find?_eq_none]
        intro u hu
        rcases (husmem u).mp hu with ⟨d, hd, g, hg, hgname, _, hud⟩
        simp only [decide_eq_true_eq]
        intro hc
        apply hyan
        rw [← hc, hud, ← hgname]
        exact List.mem_map_of_mem _ hg
      rw [← hxy, hfind]
      exact hyD
  have hDF : ∀ d ∈ D, d ∈ List.foldl applyLabelOp A (updateLabels A D) := by
    intro d hd
    rw [hfold]
    by_cases han : d.Name ∈ A.map (fun l => l.Name)
    · rcases List.mem_map.mp han with ⟨g, hgA, hgname⟩
      have hgmem : g ∈ A.filter (fun l => decide (l.Name ∈ D.map (fun l => l.Name))) :=
        List.mem_filter.mpr ⟨hgA, by
          simp only [decide_eq_true_eq]
          rw [show g.Name = d.Name from hgname]
          exact List.mem_map_of_mem _ hd⟩
      by_cases hdg : d = g
      · have hfind : ((labelDiff A D).2.1).find? (fun u => decide (u.Name = g.Name)) = none := by
          rw [List.find?_eq_none]
          intro u hu
          rcases (husmem u).mp hu with ⟨d', hd', g', hg', hg'name, hne, hud'⟩
          simp only [decide_eq_true_eq]
          intro hc
          have hdd' : d' = d := by
            apply List.inj_on_of_nodup_map hD hd' hd
            rw [← hud', hc, hgname]
          have hgg' : g' = g := by
            apply List.inj_on_of_nodup_map hA hg' hgA
            rw [hg'name, ← hud', hc]
          rw [hdd', hgg'] at hne
          rw [hdg] at hne
          simp at hne
        refine List.mem_map.mpr ⟨g, List.mem_append_left _ hgmem, ?_⟩
        rw [hfind]
        simp [hdg]
      · have hdus : d ∈ (labelDiff A D).2.1 :=
          (husmem d).mpr ⟨d, hd, g, hgA, hgname, decide_eq_false hdg, rfl⟩
        have hsome : (((labelDiff A D).2.1).find? (fun u => decide (u.Name = g.Name))).isSome := by
          rw [List.find?_isSome]
          exact ⟨d, hdus, by simp [hgname]⟩
        rcases Option.isSome_iff_exists.mp hsome with ⟨u, hu⟩
        have hupred := List.find?_some hu
        have humem := List.mem_of_find?_eq_some hu
        simp only [decide_eq_true_eq] at hupred
        rcases (husmem u).mp humem with ⟨d', hd', _, _, _, _, hud'⟩
        have hud : u = d := by
          apply List.inj_on_of_nodup_map hD (hud' ▸ hd') hd
          rw [hupred, hgname]
        refine List.mem_map.mpr ⟨g, List.mem_append_left _ hgmem, ?_⟩
        rw [hu]
        simpa using hud
    · have hdmem : d ∈ D.filter (fun d => decide (d.Name ∉ A.map (fun l => l.Name))) :=
        List.mem_filter.mpr ⟨hd, by simpa using han⟩
      have hfind : ((labelDiff A D).2.1).find? (fun u => decide (u.Name = d.Name)) = none := by
        rw [List.find?_eq_none]
        intro u hu
        rcases (husmem u).mp hu with ⟨d', hd', g, hg, hgname, _, hud'⟩
        simp only [decide_eq_true_eq]
        intro hc
        apply han
        rw [← hc, hud', ← hgname]
        exact List.mem_map_of_mem _ hg
      refine List.mem_map.mpr ⟨d, List.mem_append_right _ hdmem, ?_⟩
      rw [hfind]
      rfl
  have hFnodup : ((List.foldl applyLabelOp A (updateLabels A D)).map (fun l => l.Name)).Nodup := by
    have hnames : (List.foldl applyLabelOp A (updateLabels A D)).map (fun l => l.Name) =
        (A.filter (fun l => decide (l.Name ∈ D.map (fun l => l.Name)))
          ++ D.filter (fun d => decide (d.Name ∉ A.map (fun l => l.Name)))).map
          (fun l => l.Name) := by
      rw [hfold, List.map_map]
      apply List.map_congr_left
      intro y _
      simp only [Function.comp]
      cases hfind : ((labelDiff A D).2.1).find? (fun u => decide (u.Name = y.Name)) with
      | some u =>
        have := List.find?_some hfind
        simp only [decide_eq_true_eq] at this
        simp [hfind, this]
      | none => simp [hfind]
    rw [hnames, List.map_append]
    apply List.Nodup.append
    · exact List.Nodup.sublist (List.Sublist.map _ (List.filter_sublist A)) hA
    · exact List.Nodup.sublist (List.Sublist.map _ (List.filter_sublist D)) hD
    · intro x hx1 hx2
      rcases List.mem_map.mp hx1 with ⟨l, hl, hlx⟩
      rcases List.mem_map.mp hx2 with ⟨c, hc, hcx⟩
      rcases List.mem_filter.mp hc with ⟨_, hcpred⟩
      simp only [decide_eq_true_eq] at hcpred
      apply hcpred
      rw [hcx, ← hlx]
      exact List.mem_map_of_mem _ (List.mem_filter.mp hl).1
  apply updateLabels_eq_nil_of_diff
  exact diffPhase_drain (fun l : label => l.Name) (fun d g => decide (d = g)) (fun d _ => d)
    false (List.foldl applyLabelOp A (updateLabels A D)) D hD hFnodup
    (fun x hx => List.mem_map_of_mem _ (hFD x hx))
    (fun d hd => ⟨d, hDF d hd, rfl, by simp⟩)

theorem readBranch_name (rb : RemoteBranch) : (readBranch rb).Name = rb.Name := by
  cases h : rb.Protection <;> simp [readBranch, h]

theorem readBranch_roundtrip (n : String) (p : protection)
    (hEnabled : p.Enabled = true)
    (hzero : p.RequiredApprovingReviewCount.RequiredApprovingReviewCount = 0 →
      p.RequiredApprovingReviewCount.DismissStaleReviews = false ∧
      p.RequiredApprovingReviewCount.RequireCodeOwnerReviews = false) :
    readBranch { Name := n, Protection := some (storeReq (mkProtectionRequest p)) } =
      { Name := n, Protection := p } := by
  obtain ⟨en, ea, ⟨cnt, dis, own⟩, ⟨strict, ctx⟩⟩ := p
  simp only at hEnabled hzero
  by_cases hz : cnt = 0
  · rcases hzero hz with ⟨h1, h2⟩
    simp [readBranch, storeReq, mkProtectionRequest, hz, reviewZero, hEnabled, h1, h2]
  · simp [readBranch, storeReq, mkProtectionRequest, hz, hEnabled]

theorem branchDiff_updates_sublist (A D : List branch)
    (hD : (D.map (fun b => b.Name)).Nodup) : ((branchDiff A D).2.1).Sublist D := by
  have heq := diffPhase_updates (fun b : branch => b.Name) (fun d g => decide (g = d))
    (fun d _ => d) true D (buildMap (fun b : branch => b.Name) A) hD
  rw [show (branchDiff A D).2.1 =
    (diffPhase (fun b : branch => b.Name) (fun d g => decide (g = d)) (fun d _ => d) true D
      (buildMap (fun b : branch => b.Name) A)).2.1 from rfl, heq]
  apply filterMap_sublist_self
  intro d
  cases hl : lookupKV (buildMap (fun b : branch => b.Name) A) d.Name with
  | none => right; simp [hl]
  | some g =>
    cases hk : decide (g = d) with
    | true => left; simp [hl, hk]
    | false => right; simp [hl, hk]


theorem applyBranchOps_updates_named (L : List RemoteBranch) (us : List branch)
    (hus : (us.map (fun b => b.Name)).Nodup) :
    List.foldl applyBranchOp L
      (us.map (fun b => Op.updateBranchProtection b.Name (mkProtectionRequest b.Protection))) =
      L.map (branchEditApply us) := by
  rw [applyBranchOps_updates L us hus]
  rfl

theorem branchEditApply_name (us : List branch) (rb : RemoteBranch) :
    (branchEditApply us rb).Name = rb.Name := by
  rw [branchEditApply]
  cases hfind : us.find? (fun u => decide (u.Name = rb.Name)) <;> simp

theorem branches_second_run_nil (Arb : List RemoteBranch) (D : List branch)
    (hRb : (Arb.map (fun rb => rb.Name)).Nodup)
    (hD : (D.map (fun b => b.Name)).Nodup)
    (hnormD : ∀ b ∈ D, b.Protection.Enabled = true ∧
      (b.Protection.RequiredApprovingReviewCount.RequiredApprovingReviewCount = 0 →
        b.Protection.RequiredApprovingReviewCount.DismissStaleReviews = false ∧
        b.Protection.RequiredApprovingReviewCount.RequireCodeOwnerReviews = false))
    (hcover : ∀ n ∈ Arb.map (fun rb => rb.Name), n ∈ D.map (fun b => b.Name)) :
    updateBranchSettings
      ((List.foldl applyBranchOp Arb
        (updateBranchSettings (Arb.map readBranch) D)).map readBranch) D = [] := by
  have hAnames : (Arb.map readBranch).map (fun b => b.Name) = Arb.map (fun rb => rb.Name) := by
    rw [List.map_map]
    apply List.map_congr_left
    intro rb _
    simp only [Function.comp]
    exact readBranch_name rb
  have hA : ((Arb.map readBranch).map (fun b => b.Name)).Nodup := by
    rw [hAnames]
    exact hRb
  have husmem : ∀ u, u ∈ (branchDiff (Arb.map readBranch) D).2.1 ↔
      (u ∈ D ∧ u.Name ∉ (Arb.map readBranch).map (fun b => b.Name)) ∨
        ∃ d ∈ D, ∃ g ∈ (Arb.map readBranch), g.Name = d.Name ∧
          decide (g = d) = false ∧ u = d :=
    fun u => diffPhase_update_mem_alsoUpd (fun b : branch => b.Name)
      (fun d g => decide (g = d)) (fun d _ => d) (Arb.map readBranch) D hA hD u
  have husD : ∀ u ∈ (branchDiff (Arb.map readBranch) D).2.1, u ∈ D := by
    intro u hu
    rcases (husmem u).mp hu with ⟨hu', _⟩ | ⟨d, hd, _, _, _, _, hud⟩
    · exact hu'
    · rw [hud]; exact hd
  have husnodup : (((branchDiff (Arb.map readBranch) D).2.1).map (fun b => b.Name)).Nodup :=
    List.Nodup.sublist ((branchDiff_updates_sublist (Arb.map readBranch) D hD).map _) hD
  have huniq : ∀ u ∈ (branchDiff (Arb.map readBranch) D).2.1, ∀ d ∈ D,
      u.Name = d.Name → u = d := by
    intro u hu d hd hname
    exact List.inj_on_of_nodup_map hD (husD u hu) hd hname
  have hremnil : (branchDiff (Arb.map readBranch) D).2.2 = [] := by
    rw [show (branchDiff (Arb.map readBranch) D).2.2 = _ from
      diffPhase_remaining_closed (fun b : branch => b.Name) (fun d g => decide (g = d))
        (fun d _ => d) true (Arb.map readBranch) D hA]
    rw [List.map_eq_nil_iff, List.filter_eq_nil_iff]
    intro a ha
    simp only [decide_eq_true_eq, Decidable.not_not]
    apply hcover
    rw [← hAnames]
    exact List.mem_map_of_mem _ ha
  have hcr : (branchDiff (Arb.map readBranch) D).1 =
      D.filter (fun d => decide (d.Name ∉ (Arb.map readBranch).map (fun b => b.Name))) :=
    diffPhase_creates_closed (fun b : branch => b.Name) (fun d g => decide (g = d))
      (fun d _ => d) true (Arb.map readBranch) D hD
  have hops : updateBranchSettings (Arb.map readBranch) D =
      (D.filter (fun d => decide (d.Name ∉ (Arb.map readBranch).map (fun b => b.Name)))).map
        (fun b => Op.createBranch b.Name)
      ++ ([] : List Op)
      ++ ((branchDiff (Arb.map readBranch) D).2.1).map
        (fun b => Op.updateBranchProtection b.Name (mkProtectionRequest b.Protection)) := by
    rw [updateBranchSettings, hremnil, hcr]
    rfl
  have hfold : List.foldl applyBranchOp Arb (updateBranchSettings (Arb.map readBranch) D) =
      (Arb ++ (D.filter (fun d => decide (d.Name ∉
          (Arb.map readBranch).map (fun b => b.Name)))).map
        (fun b => RemoteBranch.mk b.Name none)).map
        (branchEditApply ((branchDiff (Arb.map readBranch) D).2.1)) := by
    rw [hops, List.foldl_append, List.foldl_append, List.foldl_nil]
    rw [applyBranchOps_creates, applyBranchOps_updates_named _ _ husnodup]
  have hDF : ∀ d ∈ D,
      d ∈ (List.foldl applyBranchOp Arb
        (updateBranchSettings (Arb.map readBranch) D)).map readBranch := by
    intro d hd
    rw [hfold]
    by_cases han : d.Name ∈ (Arb.map readBranch).map (fun b => b.Name)
    · rcases List.mem_map.mp han with ⟨a, haA, haname⟩
      rcases List.mem_map.mp haA with ⟨grb, hgrb, hrd⟩
      have hgrbname : grb.Name = d.Name := by
        rw [← haname, ← hrd, readBranch_name]
      by_cases hda : a = d
      · have hfind : ((branchDiff (Arb.map readBranch) D).2.1).find?
            (fun u => decide (u.Name = grb.Name)) = none := by
          rw [List.find?_eq_none]
          intro u hu
          simp only [decide_eq_true_eq]
          intro hc
          have hud : u = d := huniq u hu d hd (by rw [hc, hgrbname])
          rcases (husmem u).mp hu with ⟨_, habs⟩ | ⟨d', hd', g, hgA, hgname, hne, hud'⟩
          · rw [hud] at habs
            exact habs han
          · have hd'd : d' = d := by rw [← hud', hud]
            have hga : g = a := by
              apply List.inj_on_of_nodup_map hA hgA haA
              rw [hgname, hd'd, ← haname]
            rw [hga, hd'd] at hne
            simp only [decide_eq_false_iff_not] at hne
            exact hne hda
        have hedit : branchEditApply ((branchDiff (Arb.map readBranch) D).2.1) grb = grb := by
          rw [branchEditApply, hfind]
        refine List.mem_map.mpr
          ⟨branchEditApply ((branchDiff (Arb.map readBranch) D).2.1) grb, ?_, ?_⟩
        · exact List.mem_map.mpr ⟨grb, List.mem_append_left _ hgrb, rfl⟩
        · rw [hedit, hrd, hda]
      · have hdus : d ∈ (branchDiff (Arb.map readBranch) D).2.1 :=
          (husmem d).mpr (Or.inr ⟨d, hd, a, haA, haname,
            decide_eq_false (fun hc => hda hc), rfl⟩)
        have hsome : (((branchDiff (Arb.map readBranch) D).2.1).find?
            (fun u => decide (u.Name = grb.Name))).isSome := by
          rw [List.find?_isSome]
          exact ⟨d, hdus, by simp [hgrbname]⟩
        rcases Option.isSome_iff_exists.mp hsome with ⟨u, hu⟩
        have hupred := List.find?_some hu
        simp only [decide_eq_true_eq] at hupred
        have hud : u = d := huniq u (List.mem_of_find?_eq_some hu) d hd
          (by rw [hupred, hgrbname])
        have hedit : branchEditApply ((branchDiff (Arb.map readBranch) D).2.1) grb =
            RemoteBranch.mk grb.Name (some (storeReq (mkProtectionRequest u.Protection))) := by
          rw [branchEditApply, hu]
        refine List.mem_map.mpr
          ⟨branchEditApply ((branchDiff (Arb.map readBranch) D).2.1) grb, ?_, ?_⟩
        · exact List.mem_map.mpr ⟨grb, List.mem_append_left _ hgrb, rfl⟩
        · rw [hedit, hud]
          rw [hgrbname]
          rcases hnormD d hd with ⟨hE, hz⟩
          exact readBranch_roundtrip d.Name d.Protection hE hz
    · have hdcr : d ∈ D.filter (fun d => decide (d.Name ∉
          (Arb.map readBranch).map (fun b => b.Name))) :=
        List.mem_filter.mpr ⟨hd, by simpa using han⟩
      have hdus : d ∈ (branchDiff (Arb.map readBranch) D).2.1 :=
        (husmem d).mpr (Or.inl ⟨hd, han⟩)
      have hsome : (((branchDiff (Arb.map readBranch) D).2.1).find?
          (fun u => decide (u.Name = d.Name))).isSome := by
        rw [List.find?_isSome]
        exact ⟨d, hdus, by simp⟩
      rcases Option.isSome_iff_exists.mp hsome with ⟨u, hu⟩
      have hupred := List.find?_some hu
      simp only [decide_eq_true_eq] at hupred
      have hud : u = d := huniq u (List.mem_of_find?_eq_some hu) d hd hupred
      have hedit : branchEditApply ((branchDiff (Arb.map readBranch) D).2.1)
          (RemoteBranch.mk d.Name none) =
          RemoteBranch.mk d.Name (some (storeReq (mkProtectionRequest u.Protection))) := by
        rw [branchEditApply]
        dsimp only
        rw [hu]
      refine List.mem_map.mpr
        ⟨branchEditApply ((branchDiff (Arb.map readBranch) D).2.1)
          (RemoteBranch.mk d.Name none), ?_, ?_⟩
      · exact List.mem_map.mpr ⟨RemoteBranch.mk d.Name none,
          List.mem_append_right _ (List.mem_map.mpr ⟨d, hdcr, rfl⟩), rfl⟩
      · rw [hedit, hud]
        rcases hnormD d hd with ⟨hE, hz⟩
        exact readBranch_roundtrip d.Name d.Protection hE hz
  have hFnames : ((List.foldl applyBranchOp Arb
      (updateBranchSettings (Arb.map readBranch) D)).map readBranch).map (fun b => b.Name) =
      Arb.map (fun rb => rb.Name)
      ++ (D.filter (fun d => decide (d.Name ∉
          (Arb.map readBranch).map (fun b => b.Name)))).map (fun b => b.Name) := by
    rw [hfold, List.map_map, List.map_map]
    have hpt : ∀ rb ∈ Arb ++ (D.filter (fun d => decide (d.Name ∉
        (Arb.map readBranch).map (fun b => b.Name)))).map
          (fun b => RemoteBranch.mk b.Name none),
        (((fun b : branch => b.Name) ∘ readBranch) ∘
          branchEditApply ((branchDiff (Arb.map readBranch) D).2.1)) rb = rb.Name := by
      intro rb _
      simp only [Function.comp]
      rw [readBranch_name, branchEditApply_name]
    rw [List.map_congr_left hpt]
    rw [List.map_append, List.map_map]
    rfl
  have hFnodup : (((List.foldl applyBranchOp Arb
      (updateBranchSettings (Arb.map readBranch) D)).map readBranch).map
        (fun b => b.Name)).Nodup := by
    rw [hFnames]
    apply List.Nodup.append hRb
    · exact List.Nodup.sublist (List.Sublist.map _ (List.filter_sublist D)) hD
    · intro x hx1 hx2
      rcases List.mem_map.mp hx2 with ⟨c, hc, hcx⟩
      rcases List.mem_filter.mp hc with ⟨_, hcpred⟩
      simp only [decide_eq_true_eq] at hcpred
      apply hcpred
      rw [hcx, hAnames]
      exact hx1
  have hkeys : ∀ x ∈ (List.foldl applyBranchOp Arb
      (updateBranchSettings (Arb.map readBranch) D)).map readBranch,
      x.Name ∈ D.map (fun b => b.Name) := by
    intro x hx
    have hxn : x.Name ∈ ((List.foldl applyBranchOp Arb
        (updateBranchSettings (Arb.map readBranch) D)).map readBranch).map
          (fun b => b.Name) := List.mem_map_of_mem _ hx
    rw [hFnames] at hxn
    rcases List.mem_append.mp hxn with hxn | hxn
    · exact hcover x.Name hxn
    · rcases List.mem_map.mp hxn with ⟨c, hc, hcx⟩
      rw [← hcx]
      exact List.mem_map_of_mem _ (List.mem_filter.mp hc).1
  apply updateBranchSettings_eq_nil_of_diff
  exact diffPhase_drain (fun b : branch => b.Name) (fun d g => decide (g = d)) (fun d _ => d)
    true ((List.foldl applyBranchOp Arb
      (updateBranchSettings (Arb.map readBranch) D)).map readBranch) D hD hFnodup hkeys
    (fun d hd => ⟨d, hDF d hd, rfl, by simp⟩)

theorem applyHookOps_edits_named (L : List webhook) (nid : Int) (us : List webhook)
    (hus : (us.map (fun w => w.ID)).Nodup) :
    List.foldl applyHookOp (L, nid)
      (us.map (fun w => Op.editHook w.ID w.URL w.ContentType w.Secret w.Events)) =
      (L.map (hookEditApply us), nid) := by
  rw [applyHookOps_edits L nid us hus]
  rfl

theorem mem_assignIDs {nid : Int} {cs : List webhook} {x : webhook}
    (h : x ∈ assignIDs nid cs) :
    ∃ c ∈ cs, x.URL = c.URL ∧ x.ContentType = c.ContentType ∧ x.Secret = c.Secret ∧
      x.Events = c.Events ∧ nid ≤ x.ID := by
  induction cs generalizing nid with
  | nil => simp [assignIDs] at h
  | cons c cs ih =>
    rw [assignIDs] at h
    rcases List.mem_cons.mp h with hx | hx
    · refine ⟨c, List.mem_cons_self c cs, ?_⟩
      rw [hx]
      simp
    · rcases ih hx with ⟨c', hc', h1, h2, h3, h4, h5⟩
      exact ⟨c', List.mem_cons_of_mem c hc', h1, h2, h3, h4, by omega⟩

theorem assignIDs_mem_of {nid : Int} {cs : List webhook} {c : webhook} (h : c ∈ cs) :
    ∃ x ∈ assignIDs nid cs, x.URL = c.URL ∧ x.ContentType = c.ContentType ∧
      x.Secret = c.Secret ∧ x.Events = c.Events ∧ nid ≤ x.ID := by
  induction cs generalizing nid with
  | nil => simp at h
  | cons c' cs ih =>
    rcases List.mem_cons.mp h with hc | hc
    · subst hc
      refine ⟨{ c with ID := nid }, ?_, by simp⟩
      rw [assignIDs]
      exact List.mem_cons_self _ _
    · rcases @ih (nid + 1) hc with ⟨x, hx, h1, h2, h3, h4, h5⟩
      refine ⟨x, ?_, h1, h2, h3, h4, by omega⟩
      rw [assignIDs]
      exact List.mem_cons_of_mem _ hx

theorem assignIDs_map_url (nid : Int) (cs : List webhook) :
    (assignIDs nid cs).map (fun w => w.URL) = cs.map (fun w => w.URL) := by
  induction cs generalizing nid with
  | nil => rfl
  | cons c cs ih =>
    rw [assignIDs, List.map_cons, List.map_cons, ih]

theorem webhookKeep_true_of (d g : webhook) (hurl : g.URL = d.URL)
    (hct : g.ContentType = d.ContentType) (hev : g.Events = d.Events) :
    webhookKeep d g = true := by
  rw [webhookKeep, decide_eq_true_eq]
  cases d
  cases g
  simp_all

theorem webhookDiff_updates_url_sublist (A D : List webhook)
    (hD : (D.map (fun w => w.URL)).Nodup) :
    (((webhookDiff A D).2.1).map (fun w => w.URL)).Sublist (D.map (fun w => w.URL)) := by
  have heq := diffPhase_updates (fun w : webhook => w.URL) webhookKeep webhookNorm false D
    (buildMap (fun w : webhook => w.URL) A) hD
  rw [show (webhookDiff A D).2.1 =
    (diffPhase (fun w : webhook => w.URL) webhookKeep webhookNorm false D
      (buildMap (fun w : webhook => w.URL) A)).2.1 from rfl, heq]
  apply filterMap_map_key_sublist
  intro a b hab
  cases hl : lookupKV (buildMap (fun w : webhook => w.URL) A) a.URL with
  | none => rw [hl] at hab; simp at hab
  | some g =>
    rw [hl] at hab
    cases hk : webhookKeep a g with
    | true => simp [hk] at hab
    | false =>
      simp [hk] at hab
      rw [← hab]
      rfl

theorem hooks_second_run_nil (A D : List webhook) (nid : Int)
    (hAurl : (A.map (fun w => w.URL)).Nodup)
    (hAid : (A.map (fun w => w.ID)).Nodup)
    (hD : (D.map (fun w => w.URL)).Nodup)
    (hfresh : ∀ h ∈ A, h.ID < nid) :
    updateWebhooks (List.foldl applyHookOp (A, nid) (updateWebhooks A D)).1 D = [] := by
  have husmem : ∀ u, u ∈ (webhookDiff A D).2.1 ↔
      ∃ d ∈ D, ∃ g ∈ A, g.URL = d.URL ∧ webhookKeep d g = false ∧ u = webhookNorm d g :=
    fun u => diffPhase_update_mem (fun w : webhook => w.URL) webhookKeep webhookNorm
      A D hAurl hD u
  have husurlnodup : (((webhookDiff A D).2.1).map (fun w => w.URL)).Nodup :=
    List.Nodup.sublist (webhookDiff_updates_url_sublist A D hD) hD
  have husnodup0 : ((webhookDiff A D).2.1).Nodup := List.Nodup.of_map _ husurlnodup
  have husIDnodup : (((webhookDiff A D).2.1).map (fun w => w.ID)).Nodup := by
    apply List.Nodup.map_on ?_ husnodup0
    intro x hx y hy hxy
    rcases (husmem x).mp hx with ⟨dx, hdx, gx, hgx, hgxurl, _, hxn⟩
    rcases (husmem y).mp hy with ⟨dy, hdy, gy, hgy, hgyurl, _, hyn⟩
    have hgid : gx.ID = gy.ID := by
      rw [hxn, hyn] at hxy
      exact hxy
    have hgxy : gx = gy := List.inj_on_of_nodup_map hAid hgx hgy hgid
    have hurlxy : x.URL = y.URL := by
      rw [hxn, hyn]
      show dx.URL = dy.URL
      rw [← hgxurl, ← hgyurl, hgxy]
    exact List.inj_on_of_nodup_map husurlnodup hx hy hurlxy
  have hfreshus : ∀ u ∈ (webhookDiff A D).2.1, u.ID < nid := by
    intro u hu
    rcases (husmem u).mp hu with ⟨d, hd, g, hg, _, _, hun⟩
    rw [hun]
    show g.ID < nid
    exact hfresh g hg
  have hcrEq : (webhookDiff A D).1 =
      D.filter (fun d => decide (d.URL ∉ A.map (fun w => w.URL))) :=
    diffPhase_creates_closed (fun w : webhook => w.URL) webhookKeep webhookNorm
      false A D hD
  have hremEq : (webhookDiff A D).2.2 =
      (A.filter (fun g => decide (g.URL ∉ D.map (fun w => w.URL)))).map
        (fun g => (g.URL, g)) :=
    diffPhase_remaining_closed (fun w : webhook => w.URL) webhookKeep webhookNorm
      false A D hAurl
  have hops : updateWebhooks A D =
      (D.filter (fun d => decide (d.URL ∉ A.map (fun w => w.URL)))).map
        (fun w => Op.createHook w.URL w.ContentType w.Secret w.Events)
      ++ ((A.filter (fun g => decide (g.URL ∉ D.map (fun w => w.URL)))).map
        (fun g => g.ID)).map Op.deleteHook
      ++ ((webhookDiff A D).2.1).map
        (fun w => Op.editHook w.ID w.URL w.ContentType w.Secret w.Events) := by
    rw [updateWebhooks, hcrEq, hremEq, List.map_map, List.map_map]
    rfl
  have hfold : List.foldl applyHookOp (A, nid) (updateWebhooks A D) =
      (((A ++ assignIDs nid (D.filter (fun d => decide (d.URL ∉ A.map (fun w => w.URL))))).filter
        (fun h => decide (h.ID ∉ (A.filter (fun g => decide (g.URL ∉ D.map (fun w => w.URL)))).map
          (fun g => g.ID)))).map (hookEditApply ((webhookDiff A D).2.1)),
       nid + (D.filter (fun d => decide (d.URL ∉ A.map (fun w => w.URL)))).length) := by
    rw [hops, List.foldl_append, List.foldl_append]
    rw [applyHookOps_creates, applyHookOps_deletes, applyHookOps_edits_named _ _ _ husIDnodup]
  have hsurv : (A ++ assignIDs nid (D.filter (fun d => decide (d.URL ∉ A.map (fun w => w.URL))))).filter
        (fun h => decide (h.ID ∉ (A.filter (fun g => decide (g.URL ∉ D.map (fun w => w.URL)))).map
          (fun g => g.ID))) =
      A.filter (fun a => decide (a.URL ∈ D.map (fun w => w.URL)))
      ++ assignIDs nid (D.filter (fun d => decide (d.URL ∉ A.map (fun w => w.URL)))) := by
    rw [List.filter_append]
    congr 1
    · apply List.filter_congr
      intro a ha
      rw [decide_eq_decide]
      constructor
      · intro hnot
        by_cases hdn : a.URL ∈ D.map (fun w => w.URL)
        · exact hdn
        · exact absurd (List.mem_map_of_mem (fun g => g.ID)
            (List.mem_filter.mpr ⟨ha, by simpa using hdn⟩)) hnot
      · intro hdn hmem
        rcases List.mem_map.mp hmem with ⟨g, hgf, hgid⟩
        rcases List.mem_filter.mp hgf with ⟨hgA, hgpred⟩
        have hga : g = a := List.inj_on_of_nodup_map hAid hgA ha hgid
        simp only [decide_eq_true_eq] at hgpred
        rw [hga] at hgpred
        exact hgpred hdn
    · rw [List.filter_eq_self]
      intro x hx
      rcases mem_assignIDs hx with ⟨c, hc, _, _, _, _, hid⟩
      simp only [decide_eq_true_eq]
      intro hmem
      rcases List.mem_map.mp hmem with ⟨g, hgf, hgid⟩
      have hglt : g.ID < nid := hfresh g (List.mem_filter.mp hgf).1
      omega
  have hedit_url : ∀ h ∈ A.filter (fun a => decide (a.URL ∈ D.map (fun w => w.URL)))
      ++ assignIDs nid (D.filter (fun d => decide (d.URL ∉ A.map (fun w => w.URL)))),
      (hookEditApply ((webhookDiff A D).2.1) h).URL = h.URL := by
    intro h hmem
    rw [hookEditApply]
    cases hfind : ((webhookDiff A D).2.1).find? (fun u => decide (u.ID = h.ID)) with
    | none => rfl
    | some u =>
      have hupred := List.find?_some hfind
      simp only [decide_eq_true_eq] at hupred
      have humem := List.mem_of_find?_eq_some hfind
      rcases List.mem_append.mp hmem with hmem | hmem
      · rcases List.mem_filter.mp hmem with ⟨hhA, _⟩
        rcases (husmem u).mp humem with ⟨d, hd, g, hg, hgurl, _, hun⟩
        have hgid : g.ID = h.ID := by
          rw [← hupred, hun]
          rfl
        have hgh : g = h := List.inj_on_of_nodup_map hAid hg hhA hgid
        show u.URL = h.URL
        rw [hun]
        show d.URL = h.URL
        rw [← hgurl, hgh]
      · exfalso
        rcases mem_assignIDs hmem with ⟨c, hc, _, _, _, _, hid⟩
        have := hfreshus u humem
        omega
  have hFurl : ((((A.filter (fun a => decide (a.URL ∈ D.map (fun w => w.URL))))
      ++ assignIDs nid (D.filter (fun d => decide (d.URL ∉ A.map (fun w => w.URL))))).map
        (hookEditApply ((webhookDiff A D).2.1))).map (fun w => w.URL)) =
      (A.filter (fun a => decide (a.URL ∈ D.map (fun w => w.URL)))).map (fun w => w.URL)
      ++ (D.filter (fun d => decide (d.URL ∉ A.map (fun w => w.URL)))).map (fun w => w.URL) := by
    rw [List.map_map]
    have hpt : ∀ h ∈ A.filter (fun a => decide (a.URL ∈ D.map (fun w => w.URL)))
        ++ assignIDs nid (D.filter (fun d => decide (d.URL ∉ A.map (fun w => w.URL)))),
        ((fun w : webhook => w.URL) ∘ hookEditApply ((webhookDiff A D).2.1)) h = h.URL := by
      intro h hh
      simp only [Function.comp]
      exact hedit_url h hh
    rw [List.map_congr_left hpt, List.map_append, assignIDs_map_url]
  have hFnodup : (((A.filter (fun a => decide (a.URL ∈ D.map (fun w => w.URL)))
      ++ assignIDs nid (D.filter (fun d => decide (d.URL ∉ A.map (fun w => w.URL))))).map
        (hookEditApply ((webhookDiff A D).2.1))).map (fun w => w.URL)).Nodup := by
    rw [hFurl]
    apply List.Nodup.append
    · exact List.Nodup.sublist (List.Sublist.map _ (List.filter_sublist A)) hAurl
    · exact List.Nodup.sublist (List.Sublist.map _ (List.filter_sublist D)) hD
    · intro x hx1 hx2
      rcases List.mem_map.mp hx2 with ⟨c, hc, hcx⟩
      rcases List.mem_filter.mp hc with ⟨_, hcpred⟩
      simp only [decide_eq_true_eq] at hcpred
      apply hcpred
      rw [hcx]
      rcases List.mem_map.mp hx1 with ⟨a, ha, hax⟩
      rw [← hax]
      exact List.mem_map_of_mem _ (List.mem_filter.mp ha).1
  have hkeys : ∀ x ∈ (A.filter (fun a => decide (a.URL ∈ D.map (fun w => w.URL)))
      ++ assignIDs nid (D.filter (fun d => decide (d.URL ∉ A.map (fun w => w.URL))))).map
        (hookEditApply ((webhookDiff A D).2.1)),
      x.URL ∈ D.map (fun w => w.URL) := by
    intro x hx
    have hxn := List.mem_map_of_mem (fun w : webhook => w.URL) hx
    rw [hFurl] at hxn
    rcases List.mem_append.mp hxn with hxn | hxn
    · rcases List.mem_map.mp hxn with ⟨a, ha, hax⟩
      rcases List.mem_filter.mp ha with ⟨_, hapred⟩
      simp only [decide_eq_true_eq] at hapred
      rw [show x.URL = a.URL from hax.symm]
      exact hapred
    · rcases List.mem_map.mp hxn with ⟨c, hc, hcx⟩
      rw [show x.URL = c.URL from hcx.symm]
      exact List.mem_map_of_mem _ (List.mem_filter.mp hc).1
  have hmatch : ∀ d ∈ D, ∃ g' ∈ (A.filter (fun a => decide (a.URL ∈ D.map (fun w => w.URL)))
      ++ assignIDs nid (D.filter (fun d => decide (d.URL ∉ A.map (fun w => w.URL))))).map
        (hookEditApply ((webhookDiff A D).2.1)),
      g'.URL = d.URL ∧ webhookKeep d g' = true := by
    intro d hd
    by_cases han : d.URL ∈ A.map (fun w => w.URL)
    · rcases List.mem_map.mp han with ⟨a, haA, haurl⟩
      have hamem : a ∈ A.filter (fun a => decide (a.URL ∈ D.map (fun w => w.URL))) :=
        List.mem_filter.mpr ⟨haA, by
          simp only [decide_eq_true_eq]
          rw [haurl]
          exact List.mem_map_of_mem _ hd⟩
      by_cases hkeep : webhookKeep d a = true
      · have hfind : ((webhookDiff A D).2.1).find? (fun u => decide (u.ID = a.ID)) = none := by
          rw [List.find?_eq_none]
          intro u hu
          simp only [decide_eq_true_eq]
          intro hc
          rcases (husmem u).mp hu with ⟨d', hd', g, hg, hgurl, hkeep', hun⟩
          have hgid : g.ID = a.ID := by
            rw [← hc, hun]
            rfl
          have hga : g = a := List.inj_on_of_nodup_map hAid hg haA hgid
          have hd'd : d' = d := by
            apply List.inj_on_of_nodup_map hD hd' hd
            rw [← hgurl, hga, haurl]
          rw [hga, hd'd] at hkeep'
          rw [hkeep'] at hkeep
          exact absurd hkeep (by simp)
        have hedit : hookEditApply ((webhookDiff A D).2.1) a = a := by
          rw [hookEditApply, hfind]
        refine ⟨hookEditApply ((webhookDiff A D).2.1) a,
          List.mem_map_of_mem _ (List.mem_append_left _ hamem), ?_, ?_⟩
        · rw [hedit, haurl]
        · rw [hedit]
          exact hkeep
      · have hkeepf : webhookKeep d a = false := by
          cases h : webhookKeep d a
          · rfl
          · exact absurd h hkeep
        have hdus : webhookNorm d a ∈ (webhookDiff A D).2.1 :=
          (husmem _).mpr ⟨d, hd, a, haA, haurl, hkeepf, rfl⟩
        have hsome : (((webhookDiff A D).2.1).find? (fun u => decide (u.ID = a.ID))).isSome := by
          rw [List.find?_isSome]
          refine ⟨webhookNorm d a, hdus, ?_⟩
          simp only [decide_eq_true_eq]
          rfl
        rcases Option.isSome_iff_exists.mp hsome with ⟨u, hu⟩
        have hupred := List.find?_some hu
        simp only [decide_eq_true_eq] at hupred
        have humem := List.mem_of_find?_eq_some hu
        rcases (husmem u).mp humem with ⟨d', hd', g, hg, hgurl, hkeep', hun⟩
        have hgid : g.ID = a.ID := by
          rw [← hupred, hun]
          rfl
        have hga : g = a := List.inj_on_of_nodup_map hAid hg haA hgid
        have hd'd : d' = d := by
          apply List.inj_on_of_nodup_map hD hd' hd
          rw [← hgurl, hga, haurl]
        have huurl : u.URL = d.URL := by
          rw [hun]
          show d'.URL = d.URL
          rw [hd'd]
        have huct : u.ContentType = d.ContentType := by
          rw [hun]
          show d'.ContentType = d.ContentType
          rw [hd'd]
        have husec : u.Secret = d.Secret := by
          rw [hun]
          show d'.Secret = d.Secret
          rw [hd'd]
        have huev : u.Events = d.Events := by
          rw [hun]
          show d'.Events = d.Events
          rw [hd'd]
        have hedit : hookEditApply ((webhookDiff A D).2.1) a =
            { ID := a.ID, URL := u.URL, ContentType := u.ContentType,
              Secret := u.Secret, Events := u.Events } := by
          rw [hookEditApply, hu]
        refine ⟨hookEditApply ((webhookDiff A D).2.1) a,
          List.mem_map_of_mem _ (List.mem_append_left _ hamem), ?_, ?_⟩
        · rw [hedit]
          exact huurl
        · rw [hedit]
          exact webhookKeep_true_of d
            { ID := a.ID, URL := u.URL, ContentType := u.ContentType,
              Secret := u.Secret, Events := u.Events } huurl huct huev
    · have hdcr : d ∈ D.filter (fun d => decide (d.URL ∉ A.map (fun w => w.URL))) :=
        List.mem_filter.mpr ⟨hd, by simpa using han⟩
      rcases @assignIDs_mem_of nid _ _ hdcr with ⟨x, hxmem, hxurl, hxct, hxsec, hxev, hxid⟩
      have hfind : ((webhookDiff A D).2.1).find? (fun u => decide (u.ID = x.ID)) = none := by
        rw [List.find?_eq_none]
        intro u hu
        simp only [decide_eq_true_eq]
        intro hc
        have := hfreshus u hu
        omega
      have hedit : hookEditApply ((webhookDiff A D).2.1) x = x := by
        rw [hookEditApply, hfind]
      refine ⟨hookEditApply ((webhookDiff A D).2.1) x,
        List.mem_map_of_mem _ (List.mem_append_right _ hxmem), ?_, ?_⟩
      · rw [hedit, hxurl]
      · rw [hedit]
        exact webhookKeep_true_of d x hxurl hxct hxev
  rw [hfold]
  apply updateWebhooks_eq_nil_of_diff
  rw [show (((A ++ assignIDs nid (D.filter (fun d => decide (d.URL ∉ A.map (fun w => w.URL))))).filter
        (fun h => decide (h.ID ∉ (A.filter (fun g => decide (g.URL ∉ D.map (fun w => w.URL)))).map
          (fun g => g.ID)))).map (hookEditApply ((webhookDiff A D).2.1)),
       nid + (D.filter (fun d => decide (d.URL ∉ A.map (fun w => w.URL)))).length).1 =
    ((A ++ assignIDs nid (D.filter (fun d => decide (d.URL ∉ A.map (fun w => w.URL))))).filter
        (fun h => decide (h.ID ∉ (A.filter (fun g => decide (g.URL ∉ D.map (fun w => w.URL)))).map
          (fun g => g.ID)))).map (hookEditApply ((webhookDiff A D).2.1)) from rfl]
  rw [hsurv]
  exact diffPhase_drain (fun w : webhook => w.URL) webhookKeep webhookNorm false
    (A.filter (fun a => decide (a.URL ∈ D.map (fun w => w.URL)))
      ++ assignIDs nid (D.filter (fun d => decide (d.URL ∉ A.map (fun w => w.URL)))) |>.map
        (hookEditApply ((webhookDiff A D).2.1))) D hD hFnodup hkeys hmatch

theorem repo_second_run_eq (R : RemoteState) (D : Settings)
    (hname : R.Repo.Name = D.Repository.Name)
    (howner : R.Repo.Owner = D.Repository.Owner)
    (hpages : D.Repository.HasPages = false) :
    (GetSettingsFromGithub (applyRun R D)).Repository = D.Repository := by
  have hrepo := applyRun_repo R D
  by_cases heq : (GetSettingsFromGithub R).Repository = D.Repository
  · rw [updateRepoSettings, if_pos heq] at hrepo
    have h1 : (applyRun R D).Repo = R.Repo := hrepo
    rw [← heq]
    simp [GetSettingsFromGithub, h1]
  · rw [updateRepoSettings, if_neg heq] at hrepo
    have h1 : (applyRun R D).Repo = applyEditRepo R.Repo (mkRepoEdit D.Repository) := hrepo
    cases hdr : D.Repository with
    | mk n o desc hp db pr hi hproj hpg hw hd it ar asm amc arm =>
      rw [hdr] at hname howner hpages h1
      simp only at hpages
      subst hpages
      simp [GetSettingsFromGithub, h1, applyEditRepo, mkRepoEdit, hname, howner]

theorem topics_second_run_nil (R : RemoteState) (D : Settings) :
    updateTopicsSettings (GetSettingsFromGithub (applyRun R D)).Topics D.Topics = [] := by
  have hGt : (GetSettingsFromGithub (applyRun R D)).Topics = (applyRun R D).Topics := rfl
  rw [hGt, applyRun_topics]
  by_cases hs : (GetSettingsFromGithub R).Topics.insertionSort (· ≤ ·) =
      D.Topics.insertionSort (· ≤ ·)
  · rw [if_pos hs]
    have hs' : R.Topics.insertionSort (· ≤ ·) = D.Topics.insertionSort (· ≤ ·) := hs
    rw [updateTopicsSettings, if_pos hs']
  · rw [if_neg hs, updateTopicsSettings, if_pos rfl]

/-- Claim C1 counterexample to the unconditional statement: with pages
enabled in the desired settings (and even already enabled on the remote),
a second run immediately after a successful first run with the same
desired settings and an untouched remote still issues a write call,
because the snapshot read by `GetSettingsFromGithub` always reports
`HasPages = false` and the repository records compare unequal again. -/
theorem claim_C1_counterexample :
    runOps
      (GetSettingsFromGithub
        (applyRun { remoteZero with Repo := { repoZero with HasPages := true } }
          { settingsZero with Repository := { repoZero with HasPages := true } }))
      { settingsZero with Repository := { repoZero with HasPages := true } } ≠ [] := by
  decide

/-- Claim C1 (amended): a second `Apply` run immediately after a
successful first run, with the same desired settings and the remote state
exactly as the first run left it, issues zero write calls — provided the
desired repository record keeps the remote identity (`Name`, `Owner`) and
does not ask for pages (the snapshot never reports `HasPages`), each
desired branch entry is load-normalized as `GetSettingsFromFile`
produces it, every remote branch name is covered by the desired branch
list (an uncovered remote branch gets `RemoveBranchProtection` on every
run), label names, branch names and webhook URLs are duplicate-free on
both sides, and the stored hook IDs are distinct and below the remote's
next fresh ID. -/
theorem claim_C1 (R : RemoteState) (D : Settings)
    (hname : R.Repo.Name = D.Repository.Name)
    (howner : R.Repo.Owner = D.Repository.Owner)
    (hpages : D.Repository.HasPages = false)
    (hnorm : ∀ b ∈ D.Branches, b.Protection.Enabled = true ∧
      (b.Protection.RequiredApprovingReviewCount.RequiredApprovingReviewCount = 0 →
        b.Protection.RequiredApprovingReviewCount.DismissStaleReviews = false ∧
        b.Protection.RequiredApprovingReviewCount.RequireCodeOwnerReviews = false))
    (hRlab : (R.Labels.map (fun l => l.Name)).Nodup)
    (hDlab : (D.Labels.map (fun l => l.Name)).Nodup)
    (hRbr : (R.Branches.map (fun rb => rb.Name)).Nodup)
    (hDbr : (D.Branches.map (fun b => b.Name)).Nodup)
    (hcover : ∀ n ∈ R.Branches.map (fun rb => rb.Name), n ∈ D.Branches.map (fun b => b.Name))
    (hRurl : (R.Hooks.map (fun w => w.URL)).Nodup)
    (hRid : (R.Hooks.map (fun w => w.ID)).Nodup)
    (hDurl : (D.Webhooks.map (fun w => w.URL)).Nodup)
    (hfresh : ∀ h ∈ R.Hooks, h.ID < R.NextHookID) :
    runOps (GetSettingsFromGithub (applyRun R D)) D = [] := by
  rw [runOps]
  rw [repo_second_run_eq R D hname howner hpages]
  rw [updateRepoSettings, if_pos rfl]
  have hlab : updateLabels (GetSettingsFromGithub (applyRun R D)).Labels D.Labels = [] := by
    have h1 : (GetSettingsFromGithub (applyRun R D)).Labels = (applyRun R D).Labels := rfl
    rw [h1, applyRun_labels]
    have h2 : (GetSettingsFromGithub R).Labels = R.Labels := rfl
    rw [h2]
    exact labels_second_run_nil R.Labels D.Labels hRlab hDlab
  rw [hlab]
  have hbr : updateBranchSettings (GetSettingsFromGithub (applyRun R D)).Branches
      D.Branches = [] := by
    have h1 : (GetSettingsFromGithub (applyRun R D)).Branches =
        (applyRun R D).Branches.map readBranch := rfl
    rw [h1, applyRun_branches]
    have h2 : (GetSettingsFromGithub R).Branches = R.Branches.map readBranch := rfl
    rw [h2]
    exact branches_second_run_nil R.Branches D.Branches hRbr hDbr hnorm hcover
  rw [hbr]
  have hwh : updateWebhooks (GetSettingsFromGithub (applyRun R D)).Webhooks
      D.Webhooks = [] := by
    have h1 : (GetSettingsFromGithub (applyRun R D)).Webhooks = (applyRun R D).Hooks := rfl
    rw [h1]
    have h2 : (applyRun R D).Hooks =
        (List.foldl applyHookOp (R.Hooks, R.NextHookID)
          (updateWebhooks (GetSettingsFromGithub R).Webhooks D.Webhooks)).1 :=
      congrArg Prod.fst (applyRun_hooks R D)
    rw [h2]
    have h3 : (GetSettingsFromGithub R).Webhooks = R.Hooks := rfl
    rw [h3]
    exact hooks_second_run_nil R.Hooks D.Webhooks R.NextHookID hRurl hRid hDurl hfresh
  rw [hwh]
  rw [topics_second_run_nil R D]
  rfl

/-- Claim C1 witness: the amended idempotence theorem evaluated at a
concrete remote state and desired settings exercising every kind of
write (label edit and create, branch protection update and branch
creation, hook edit and create, topic replacement). -/
theorem claim_C1_witness :
    runOps (GetSettingsFromGithub (applyRun remoteC1 desiredC1)) desiredC1 = [] :=
  claim_C1 remoteC1 desiredC1 (by decide) (by decide) (by decide) (by decide)
    (by decide) (by decide) (by decide) (by decide) (by decide) (by decide)
    (by decide) (by decide) (by decide)
